import Mathlib

/-!
Verification development for the shopper-navigation core of the
QuantumCoders repository.

The Python sources embedded here:
  * `app/pathfinding.py`   — `AStar.find_path`, `find_closest_walkable_node`,
                             `create_grid_from_db`
  * `app/routing_utils.py` — `get_direction_change`, `enrich_path`,
                             `get_section_for_point`
  * `app/routes/cart_routes.py` — centerline graph, `astar`,
                             greedy target ordering, `get_shortest_path_route`

Python floats are modelled by exact real arithmetic.  Every numeric value
appearing in `AStar.find_path` has the form `p + q·√2 + √n` with natural
`p q n` (step costs along the 8 compass directions are `1` or `√2`, and the
heuristic is the Euclidean distance `√n`), so scores are represented by such
triples and compared by an integer decision procedure that is proved to agree
with the real-number order.
-/

namespace QC

/-- Decides `0 ≤ a + b·√2` for integers `a b` by sign analysis and squaring. -/
def zs2Nonneg (a b : ℤ) : Bool :=
  if 0 ≤ a then
    if 0 ≤ b then true else decide (2 * b ^ 2 ≤ a ^ 2)
  else
    if 0 ≤ b then decide (a ^ 2 ≤ 2 * b ^ 2) else false

/-- The real number `a + b·√2` denoted by an integer pair. -/
noncomputable def zs2Val (a b : ℤ) : ℝ := (a : ℝ) + (b : ℝ) * Real.sqrt 2

theorem zs2Val_sq (a b : ℤ) :
    zs2Val a b ^ 2 = zs2Val (a ^ 2 + 2 * b ^ 2) (2 * a * b) := by
  have h2 : Real.sqrt 2 ^ 2 = 2 := Real.sq_sqrt (by norm_num)
  simp only [zs2Val]
  push_cast
  ring_nf
  nlinarith [h2]

theorem sqrt_mul_sqrt_two (b : ℝ) (hb : 0 ≤ b) :
    b * Real.sqrt 2 = Real.sqrt (2 * b ^ 2) := by
  rw [mul_comm (2 : ℝ), Real.sqrt_mul (by positivity), Real.sqrt_sq hb]

theorem zs2Nonneg_iff (a b : ℤ) : zs2Nonneg a b = true ↔ 0 ≤ zs2Val a b := by
  have hs2 : (0 : ℝ) < Real.sqrt 2 := Real.sqrt_pos.mpr (by norm_num)
  have hsq : Real.sqrt 2 ^ 2 = 2 := Real.sq_sqrt (by norm_num)
  unfold zs2Nonneg zs2Val
  by_cases ha : 0 ≤ a
  · by_cases hb : 0 ≤ b
    · simp only [ha, hb, if_true]
      constructor
      · intro _
        have : (0 : ℝ) ≤ (a : ℝ) := by exact_mod_cast ha
        have : (0 : ℝ) ≤ (b : ℝ) := by exact_mod_cast hb
        positivity
      · intro _; trivial
    · simp only [ha, hb, if_true, if_false, decide_eq_true_eq]
      have hb' : (b : ℝ) < 0 := by exact_mod_cast (not_le.mp hb)
      have hnb : (0 : ℝ) ≤ -(b : ℝ) := by linarith
      have key : -(b : ℝ) * Real.sqrt 2 ≤ (a : ℝ) ↔ 2 * (b : ℝ) ^ 2 ≤ (a : ℝ) ^ 2 := by
        rw [sqrt_mul_sqrt_two _ hnb]
        constructor
        · intro h
          have h0 : (0 : ℝ) ≤ Real.sqrt (2 * (-(b : ℝ)) ^ 2) := Real.sqrt_nonneg _
          have := Real.sq_sqrt (show (0:ℝ) ≤ 2 * (-(b : ℝ)) ^ 2 by positivity)
          nlinarith [Real.sqrt_nonneg (2 * (-(b : ℝ)) ^ 2)]
        · intro h
          have ha' : (0 : ℝ) ≤ (a : ℝ) := by exact_mod_cast ha
          have : Real.sqrt (2 * (-(b : ℝ)) ^ 2) ≤ Real.sqrt ((a : ℝ) ^ 2) := by
            apply Real.sqrt_le_sqrt; nlinarith
          rwa [Real.sqrt_sq ha'] at this
      constructor
      · intro h
        have h' : 2 * (b : ℝ) ^ 2 ≤ (a : ℝ) ^ 2 := by exact_mod_cast h
        have := key.mpr h'
        linarith
      · intro h
        have := key.mp (by linarith)
        exact_mod_cast this
  · by_cases hb : 0 ≤ b
    · simp only [ha, hb, if_true, if_false, decide_eq_true_eq]
      have ha' : (a : ℝ) < 0 := by exact_mod_cast (not_le.mp ha)
      have hna : (0 : ℝ) ≤ -(a : ℝ) := by linarith
      have hb' : (0 : ℝ) ≤ (b : ℝ) := by exact_mod_cast hb
      have key : -(a : ℝ) ≤ (b : ℝ) * Real.sqrt 2 ↔ (a : ℝ) ^ 2 ≤ 2 * (b : ℝ) ^ 2 := by
        rw [sqrt_mul_sqrt_two _ hb']
        constructor
        · intro h
          have := Real.sq_sqrt (show (0:ℝ) ≤ 2 * (b : ℝ) ^ 2 by positivity)
          nlinarith [Real.sqrt_nonneg (2 * (b : ℝ) ^ 2)]
        · intro h
          have : Real.sqrt ((a : ℝ) ^ 2) ≤ Real.sqrt (2 * (b : ℝ) ^ 2) :=
            Real.sqrt_le_sqrt (by nlinarith)
          rwa [Real.sqrt_sq_eq_abs, abs_of_neg ha'] at this
      constructor
      · intro h
        have h' : (a : ℝ) ^ 2 ≤ 2 * (b : ℝ) ^ 2 := by exact_mod_cast h
        have := key.mpr h'
        linarith
      · intro h
        have := key.mp (by linarith)
        exact_mod_cast this
    · simp only [ha, hb, if_false]
      have ha' : (a : ℝ) < 0 := by exact_mod_cast (not_le.mp ha)
      have hb' : (b : ℝ) < 0 := by exact_mod_cast (not_le.mp hb)
      constructor
      · intro h; cases h
      · intro h
        exfalso
        nlinarith

/-- g-score representation in `AStar.find_path`: `p` cardinal steps of cost 1
plus `q` diagonal steps of cost √2, denoting the real number `p + q·√2`. -/
abbrev GV := ℕ × ℕ

/-- The real number denoted by a g-score representation. -/
noncomputable def gvVal (g : GV) : ℝ := (g.1 : ℝ) + (g.2 : ℝ) * Real.sqrt 2

/-- `gvLt x y` decides `gvVal x < gvVal y`. -/
def gvLt (x y : GV) : Bool :=
  !zs2Nonneg ((x.1 : ℤ) - y.1) ((x.2 : ℤ) - y.2)

theorem gvVal_eq (g : GV) : gvVal g = zs2Val g.1 g.2 := by
  simp [gvVal, zs2Val]

theorem gvLt_iff (x y : GV) : gvLt x y = true ↔ gvVal x < gvVal y := by
  have h := zs2Nonneg_iff ((x.1 : ℤ) - y.1) ((x.2 : ℤ) - y.2)
  have hval : zs2Val ((x.1 : ℤ) - y.1) ((x.2 : ℤ) - y.2) = gvVal x - gvVal y := by
    simp [zs2Val, gvVal]; ring
  rw [hval] at h
  unfold gvLt
  rw [Bool.not_eq_true', ← Bool.not_eq_true, h]
  constructor
  · intro hlt; linarith [not_le.mp hlt]
  · intro hlt; intro hle; linarith

/-- f-score representation in `AStar.find_path`: a g-score part plus the
squared Euclidean distance to the goal, denoting `gvVal g + √n`. -/
abbrev FV := GV × ℕ

/-- The real number denoted by an f-score representation. -/
noncomputable def fvVal (f : FV) : ℝ := gvVal f.1 + Real.sqrt f.2

/-- `fvLe x y` decides `fvVal x ≤ fvVal y` by sign analysis and repeated
squaring; `fvLe_iff` proves it agrees with the real-number order. -/
def fvLe (x y : FV) : Bool :=
  let a : ℤ := (x.1.1 : ℤ) - y.1.1
  let b : ℤ := (x.1.2 : ℤ) - y.1.2
  let m : ℤ := (x.2 : ℤ)
  let n : ℤ := (y.2 : ℤ)
  if x.2 ≤ y.2 then
    if zs2Nonneg (-a) (-b) then true
    else
      let e1 := a ^ 2 + 2 * b ^ 2 - (n + m)
      let e2 := 2 * a * b
      zs2Nonneg (-e1) (-e2) &&
        zs2Nonneg (e1 ^ 2 + 2 * e2 ^ 2 - 4 * n * m) (2 * e1 * e2)
  else
    if zs2Nonneg a b then false
    else
      let e1 := a ^ 2 + 2 * b ^ 2 - (m + n)
      let e2 := 2 * a * b
      zs2Nonneg e1 e2 ||
        zs2Nonneg (4 * n * m - (e1 ^ 2 + 2 * e2 ^ 2)) (-(2 * e1 * e2))

theorem sq_le_sq_iff_nonneg {u v : ℝ} (hu : 0 ≤ u) (hv : 0 ≤ v) :
    u ≤ v ↔ u ^ 2 ≤ v ^ 2 := by
  constructor
  · intro h; nlinarith
  · intro h; nlinarith

theorem zs2Val_neg (a b : ℤ) : zs2Val (-a) (-b) = -zs2Val a b := by
  simp [zs2Val]; ring

theorem fvLe_iff (x y : FV) : fvLe x y = true ↔ fvVal x ≤ fvVal y := by
  obtain ⟨⟨p, q⟩, m⟩ := x
  obtain ⟨⟨r, s⟩, n⟩ := y
  have hmR : (0 : ℝ) ≤ Real.sqrt m := Real.sqrt_nonneg _
  have hnR : (0 : ℝ) ≤ Real.sqrt n := Real.sqrt_nonneg _
  have hsm : Real.sqrt (m : ℝ) ^ 2 = (m : ℝ) := Real.sq_sqrt (by positivity)
  have hsn : Real.sqrt (n : ℝ) ^ 2 = (n : ℝ) := Real.sq_sqrt (by positivity)
  have hDval : zs2Val ((p : ℤ) - r) ((q : ℤ) - s) = gvVal (p, q) - gvVal (r, s) := by
    simp [zs2Val, gvVal]; ring
  have hmain : (fvVal ((p, q), m) ≤ fvVal ((r, s), n)) ↔
      zs2Val ((p : ℤ) - r) ((q : ℤ) - s) ≤ Real.sqrt n - Real.sqrt m := by
    rw [hDval]; unfold fvVal; simp only
    constructor <;> intro h <;> linarith
  rw [hmain]
  unfold fvLe
  simp only
  by_cases hmn : m ≤ n
  · have hmnR : Real.sqrt (m : ℝ) ≤ Real.sqrt (n : ℝ) :=
      Real.sqrt_le_sqrt (by exact_mod_cast hmn)
    rw [if_pos hmn]
    by_cases hd : zs2Nonneg (-((p : ℤ) - r)) (-((q : ℤ) - s)) = true
    · rw [if_pos hd]
      have := (zs2Nonneg_iff _ _).mp hd
      rw [zs2Val_neg] at this
      simp only [true_iff]
      linarith
    · rw [if_neg hd]
      have hDpos : 0 < zs2Val ((p : ℤ) - r) ((q : ℤ) - s) := by
        by_contra hle
        exact hd ((zs2Nonneg_iff _ _).mpr (by rw [zs2Val_neg]; linarith))
      -- shorthand for the squared difference
      have hsqD := zs2Val_sq ((p : ℤ) - r) ((q : ℤ) - s)
      have hprod : Real.sqrt (n : ℝ) * Real.sqrt (m : ℝ) =
          Real.sqrt ((n : ℝ) * (m : ℝ)) := (Real.sqrt_mul (by positivity) _).symm
      have hnm : Real.sqrt ((n : ℝ) * (m : ℝ)) ^ 2 = (n : ℝ) * (m : ℝ) :=
        Real.sq_sqrt (by positivity)
      have step1 : (zs2Val ((p : ℤ) - r) ((q : ℤ) - s) ≤ Real.sqrt n - Real.sqrt m) ↔
          zs2Val ((p : ℤ) - r) ((q : ℤ) - s) ^ 2 ≤ (Real.sqrt n - Real.sqrt m) ^ 2 :=
        sq_le_sq_iff_nonneg (le_of_lt hDpos) (by linarith)
      have expand : (Real.sqrt (n : ℝ) - Real.sqrt (m : ℝ)) ^ 2 =
          (n : ℝ) + (m : ℝ) - 2 * Real.sqrt ((n : ℝ) * (m : ℝ)) := by
        rw [sub_sq, hsn, hsm]; linear_combination (-2 : ℝ) * hprod
      have step2 : (zs2Val ((p : ℤ) - r) ((q : ℤ) - s) ^ 2 ≤ (Real.sqrt n - Real.sqrt m) ^ 2) ↔
          zs2Val (((p : ℤ) - r) ^ 2 + 2 * ((q : ℤ) - s) ^ 2 - ((n : ℤ) + m))
              (2 * ((p : ℤ) - r) * ((q : ℤ) - s)) ≤
            -(2 * Real.sqrt ((n : ℝ) * (m : ℝ))) := by
        rw [expand, hsqD]
        have hlin : zs2Val (((p : ℤ) - r) ^ 2 + 2 * ((q : ℤ) - s) ^ 2 - ((n : ℤ) + m))
            (2 * ((p : ℤ) - r) * ((q : ℤ) - s)) =
            zs2Val (((p : ℤ) - r) ^ 2 + 2 * ((q : ℤ) - s) ^ 2)
              (2 * ((p : ℤ) - r) * ((q : ℤ) - s)) - ((n : ℝ) + (m : ℝ)) := by
          simp [zs2Val]; ring
        rw [hlin]
        constructor <;> intro h <;> linarith
      have hsqnm : (0 : ℝ) ≤ 2 * Real.sqrt ((n : ℝ) * (m : ℝ)) := by positivity
      have step3 : (zs2Val (((p : ℤ) - r) ^ 2 + 2 * ((q : ℤ) - s) ^ 2 - ((n : ℤ) + m))
              (2 * ((p : ℤ) - r) * ((q : ℤ) - s)) ≤
            -(2 * Real.sqrt ((n : ℝ) * (m : ℝ)))) ↔
          (0 ≤ -zs2Val (((p : ℤ) - r) ^ 2 + 2 * ((q : ℤ) - s) ^ 2 - ((n : ℤ) + m))
              (2 * ((p : ℤ) - r) * ((q : ℤ) - s)) ∧
           (2 * Real.sqrt ((n : ℝ) * (m : ℝ))) ^ 2 ≤
            zs2Val (((p : ℤ) - r) ^ 2 + 2 * ((q : ℤ) - s) ^ 2 - ((n : ℤ) + m))
              (2 * ((p : ℤ) - r) * ((q : ℤ) - s)) ^ 2) := by
        constructor
        · intro h
          constructor
          · linarith
          · nlinarith
        · rintro ⟨h1, h2⟩
          nlinarith
      rw [step1, step2, step3]
      have hiff1 := zs2Nonneg_iff
        (-(((p : ℤ) - r) ^ 2 + 2 * ((q : ℤ) - s) ^ 2 - ((n : ℤ) + m)))
        (-(2 * ((p : ℤ) - r) * ((q : ℤ) - s)))
      rw [zs2Val_neg] at hiff1
      have hiff2 := zs2Nonneg_iff
        ((((p : ℤ) - r) ^ 2 + 2 * ((q : ℤ) - s) ^ 2 - ((n : ℤ) + m)) ^ 2 +
          2 * (2 * ((p : ℤ) - r) * ((q : ℤ) - s)) ^ 2 - 4 * n * m)
        (2 * (((p : ℤ) - r) ^ 2 + 2 * ((q : ℤ) - s) ^ 2 - ((n : ℤ) + m)) *
          (2 * ((p : ℤ) - r) * ((q : ℤ) - s)))
      have hsq2 := zs2Val_sq (((p : ℤ) - r) ^ 2 + 2 * ((q : ℤ) - s) ^ 2 - ((n : ℤ) + m))
        (2 * ((p : ℤ) - r) * ((q : ℤ) - s))
      have hval2 : zs2Val
          ((((p : ℤ) - r) ^ 2 + 2 * ((q : ℤ) - s) ^ 2 - ((n : ℤ) + m)) ^ 2 +
            2 * (2 * ((p : ℤ) - r) * ((q : ℤ) - s)) ^ 2 - 4 * n * m)
          (2 * (((p : ℤ) - r) ^ 2 + 2 * ((q : ℤ) - s) ^ 2 - ((n : ℤ) + m)) *
            (2 * ((p : ℤ) - r) * ((q : ℤ) - s))) =
          zs2Val (((p : ℤ) - r) ^ 2 + 2 * ((q : ℤ) - s) ^ 2 - ((n : ℤ) + m))
            (2 * ((p : ℤ) - r) * ((q : ℤ) - s)) ^ 2 - 4 * (n : ℝ) * (m : ℝ) := by
        rw [hsq2]; simp [zs2Val]; ring
      rw [Bool.and_eq_true, hiff1, hiff2, hval2]
      have h4nm : (2 * Real.sqrt ((n : ℝ) * (m : ℝ))) ^ 2 = 4 * (n : ℝ) * (m : ℝ) := by
        rw [mul_pow, hnm]; ring
      rw [h4nm]
      constructor
      · rintro ⟨h1, h2⟩; exact ⟨h1, by linarith⟩
      · rintro ⟨h1, h2⟩; exact ⟨h1, by linarith⟩
  · have hmn' : n < m := not_le.mp hmn
    have hmnR : Real.sqrt (n : ℝ) < Real.sqrt (m : ℝ) :=
      Real.sqrt_lt_sqrt (by positivity) (by exact_mod_cast hmn')
    rw [if_neg hmn]
    by_cases hd : zs2Nonneg ((p : ℤ) - r) ((q : ℤ) - s) = true
    · rw [if_pos hd]
      have hge := (zs2Nonneg_iff _ _).mp hd
      constructor
      · intro h; cases h
      · intro h; exfalso; linarith
    · rw [if_neg hd]
      have hDneg : zs2Val ((p : ℤ) - r) ((q : ℤ) - s) < 0 := by
        by_contra hle
        exact hd ((zs2Nonneg_iff _ _).mpr (by linarith [not_lt.mp hle]))
      have hsqD := zs2Val_sq ((p : ℤ) - r) ((q : ℤ) - s)
      have hprod : Real.sqrt (n : ℝ) * Real.sqrt (m : ℝ) =
          Real.sqrt ((n : ℝ) * (m : ℝ)) := (Real.sqrt_mul (by positivity) _).symm
      have hnm : Real.sqrt ((n : ℝ) * (m : ℝ)) ^ 2 = (n : ℝ) * (m : ℝ) :=
        Real.sq_sqrt (by positivity)
      -- d ≤ √n − √m  ⟺  √m − √n ≤ −d  ⟺  (√m−√n)² ≤ d²
      have step1 : (zs2Val ((p : ℤ) - r) ((q : ℤ) - s) ≤ Real.sqrt n - Real.sqrt m) ↔
          (Real.sqrt (m : ℝ) - Real.sqrt (n : ℝ)) ^ 2 ≤
            zs2Val ((p : ℤ) - r) ((q : ℤ) - s) ^ 2 := by
        have base : (zs2Val ((p : ℤ) - r) ((q : ℤ) - s) ≤ Real.sqrt n - Real.sqrt m) ↔
            (Real.sqrt (m : ℝ) - Real.sqrt (n : ℝ) ≤
              -zs2Val ((p : ℤ) - r) ((q : ℤ) - s)) := by
          constructor <;> intro h <;> linarith
        rw [base, sq_le_sq_iff_nonneg (by linarith) (by linarith)]
        have hE : (-zs2Val ((p : ℤ) - r) ((q : ℤ) - s)) ^ 2 =
            zs2Val ((p : ℤ) - r) ((q : ℤ) - s) ^ 2 := by ring
        rw [hE]
      have expand : (Real.sqrt (m : ℝ) - Real.sqrt (n : ℝ)) ^ 2 =
          (m : ℝ) + (n : ℝ) - 2 * Real.sqrt ((n : ℝ) * (m : ℝ)) := by
        rw [sub_sq, hsn, hsm]; linear_combination (-2 : ℝ) * hprod
      have hlin : zs2Val (((p : ℤ) - r) ^ 2 + 2 * ((q : ℤ) - s) ^ 2 - ((m : ℤ) + n))
          (2 * ((p : ℤ) - r) * ((q : ℤ) - s)) =
          zs2Val ((p : ℤ) - r) ((q : ℤ) - s) ^ 2 - ((m : ℝ) + (n : ℝ)) := by
        rw [hsqD]; simp [zs2Val]; ring
      have step2 : ((Real.sqrt (m : ℝ) - Real.sqrt (n : ℝ)) ^ 2 ≤
            zs2Val ((p : ℤ) - r) ((q : ℤ) - s) ^ 2) ↔
          -(2 * Real.sqrt ((n : ℝ) * (m : ℝ))) ≤
            zs2Val (((p : ℤ) - r) ^ 2 + 2 * ((q : ℤ) - s) ^ 2 - ((m : ℤ) + n))
              (2 * ((p : ℤ) - r) * ((q : ℤ) - s)) := by
        rw [expand, hlin]
        constructor <;> intro h <;> linarith
      rw [hmain] at *
      rw [step1, step2]
      -- now decide  −2√(nm) ≤ E'  via  0 ≤ E'  ∨  E'² ≤ 4nm (with E' < 0)
      have hsqnm : (0 : ℝ) ≤ 2 * Real.sqrt ((n : ℝ) * (m : ℝ)) := by positivity
      have hiff1 := zs2Nonneg_iff
        (((p : ℤ) - r) ^ 2 + 2 * ((q : ℤ) - s) ^ 2 - ((m : ℤ) + n))
        (2 * ((p : ℤ) - r) * ((q : ℤ) - s))
      have hsq2 := zs2Val_sq (((p : ℤ) - r) ^ 2 + 2 * ((q : ℤ) - s) ^ 2 - ((m : ℤ) + n))
        (2 * ((p : ℤ) - r) * ((q : ℤ) - s))
      have hiff2 := zs2Nonneg_iff
        (4 * n * m - ((((p : ℤ) - r) ^ 2 + 2 * ((q : ℤ) - s) ^ 2 - ((m : ℤ) + n)) ^ 2 +
          2 * (2 * ((p : ℤ) - r) * ((q : ℤ) - s)) ^ 2))
        (-(2 * (((p : ℤ) - r) ^ 2 + 2 * ((q : ℤ) - s) ^ 2 - ((m : ℤ) + n)) *
          (2 * ((p : ℤ) - r) * ((q : ℤ) - s))))
      have hval2 : zs2Val
          (4 * n * m - ((((p : ℤ) - r) ^ 2 + 2 * ((q : ℤ) - s) ^ 2 - ((m : ℤ) + n)) ^ 2 +
            2 * (2 * ((p : ℤ) - r) * ((q : ℤ) - s)) ^ 2))
          (-(2 * (((p : ℤ) - r) ^ 2 + 2 * ((q : ℤ) - s) ^ 2 - ((m : ℤ) + n)) *
            (2 * ((p : ℤ) - r) * ((q : ℤ) - s)))) =
          4 * (n : ℝ) * (m : ℝ) -
            zs2Val (((p : ℤ) - r) ^ 2 + 2 * ((q : ℤ) - s) ^ 2 - ((m : ℤ) + n))
              (2 * ((p : ℤ) - r) * ((q : ℤ) - s)) ^ 2 := by
        rw [hsq2]; simp [zs2Val]; ring
      rw [Bool.or_eq_true, hiff1, hiff2, hval2]
      have h4nm : (2 * Real.sqrt ((n : ℝ) * (m : ℝ))) ^ 2 = 4 * (n : ℝ) * (m : ℝ) := by
        rw [mul_pow, hnm]; ring
      constructor
      · rintro (h1 | h2)
        · linarith
        · -- E'² ≤ 4nm  and  E' < 0 ∨ E' ≥ 0; both give −2√(nm) ≤ E'
          rcases le_or_lt 0 (zs2Val (((p : ℤ) - r) ^ 2 + 2 * ((q : ℤ) - s) ^ 2 - ((m : ℤ) + n))
              (2 * ((p : ℤ) - r) * ((q : ℤ) - s))) with hE | hE
          · linarith
          · have h2' : (-zs2Val (((p : ℤ) - r) ^ 2 + 2 * ((q : ℤ) - s) ^ 2 - ((m : ℤ) + n))
                (2 * ((p : ℤ) - r) * ((q : ℤ) - s))) ^ 2 ≤
                (2 * Real.sqrt ((n : ℝ) * (m : ℝ))) ^ 2 := by
              rw [h4nm]
              calc (-zs2Val (((p : ℤ) - r) ^ 2 + 2 * ((q : ℤ) - s) ^ 2 - ((m : ℤ) + n))
                  (2 * ((p : ℤ) - r) * ((q : ℤ) - s))) ^ 2
                  = zs2Val (((p : ℤ) - r) ^ 2 + 2 * ((q : ℤ) - s) ^ 2 - ((m : ℤ) + n))
                    (2 * ((p : ℤ) - r) * ((q : ℤ) - s)) ^ 2 := by ring
                _ ≤ _ := by linarith
            have := (sq_le_sq_iff_nonneg (by linarith) hsqnm).mpr h2'
            linarith
      · intro h
        rcases le_or_lt 0 (zs2Val (((p : ℤ) - r) ^ 2 + 2 * ((q : ℤ) - s) ^ 2 - ((m : ℤ) + n))
            (2 * ((p : ℤ) - r) * ((q : ℤ) - s))) with hE | hE
        · exact Or.inl hE
        · right
          have hstep : -zs2Val (((p : ℤ) - r) ^ 2 + 2 * ((q : ℤ) - s) ^ 2 - ((m : ℤ) + n))
              (2 * ((p : ℤ) - r) * ((q : ℤ) - s)) ≤
              2 * Real.sqrt ((n : ℝ) * (m : ℝ)) := by linarith
          have := (sq_le_sq_iff_nonneg (by linarith) hsqnm).mp hstep
          rw [h4nm] at this
          nlinarith

/-! ## Embedding of `app/pathfinding.py` -/

/-- A grid cell `(row, col)`, as the Python `(r, c)` tuples. -/
abbrev Node := ℤ × ℤ

/-- Occupancy grid: a list of rows whose entries are 0 (free) or 1 (blocked);
`len(grid)` rows, `len(grid[0])` columns. -/
abbrev Grid := List (List ℕ)

/-- `len(grid)` as used by `AStar.__init__`. -/
def gridHeight (g : Grid) : ℤ := g.length

/-- `len(grid[0])` as used by `AStar.__init__`. -/
def gridWidth (g : Grid) : ℤ := (g.headD []).length

/-- `grid[r][c]`.  The Python code reads a cell only after an explicit
bounds check, so the out-of-range default is never observed. -/
def gridVal (g : Grid) (n : Node) : ℕ := (g.getD n.1.toNat []).getD n.2.toNat 0

/-- `0 <= r < height and 0 <= c < width`. -/
def inBounds (g : Grid) (n : Node) : Bool :=
  decide (0 ≤ n.1) && decide (n.1 < gridHeight g) &&
    decide (0 ≤ n.2) && decide (n.2 < gridWidth g)

/-- The 4-directional offsets `[(0,1),(0,-1),(1,0),(-1,0)]` of
`find_closest_walkable_node`. -/
def dirs4 : List (ℤ × ℤ) := [(0, 1), (0, -1), (1, 0), (-1, 0)]

/-- One pass over the neighbour offsets of the dequeued cell in
`find_closest_walkable_node`: either the first free in-bounds unvisited cell
(the Python early `return (ny, nx)`), or the queue and visited list extended
with the newly seen blocked cells. -/
def fcwExpand (g : Grid) (c : Node) :
    List (ℤ × ℤ) → List Node → List Node → Sum Node (List Node × List Node)
  | [], q, vis => Sum.inr (q, vis)
  | d :: ds, q, vis =>
    let nb : Node := (c.1 + d.1, c.2 + d.2)
    if inBounds g nb && !(decide (nb ∈ vis)) then
      if gridVal g nb == 0 then Sum.inl nb
      else fcwExpand g c ds (q ++ [nb]) (vis ++ [nb])
    else fcwExpand g c ds q vis

/-- The `while q:` loop of `find_closest_walkable_node`, with explicit fuel
(the Python loop terminates because `visited` only grows). -/
def fcwLoop (g : Grid) : ℕ → List Node → List Node → Option Node
  | 0, _, _ => none
  | _ + 1, [], _ => none
  | fuel + 1, c :: q, vis =>
    match fcwExpand g c dirs4 q vis with
    | Sum.inl free => some free
    | Sum.inr (q', vis') => fcwLoop g fuel q' vis'

/-- Fuel that suffices for the BFS: one unit per possible enqueue. -/
def fcwFuel (g : Grid) : ℕ := g.length * (g.headD []).length + 2

/-- `find_closest_walkable_node(grid, target_node)`. -/
def find_closest_walkable_node (g : Grid) (t : Node) : Option Node :=
  if gridVal g t == 0 then some t
  else fcwLoop g (fcwFuel g) [t] [t]

/-- The 8-directional offsets of the `for dr, dc in [...]` loop in
`AStar.find_path`. -/
def dirs8 : List (ℤ × ℤ) :=
  [(0, 1), (0, -1), (1, 0), (-1, 0), (1, 1), (1, -1), (-1, 1), (-1, -1)]

/-- Radicand of `self.heuristic(a, b) = ((a₀−b₀)² + (a₁−b₁)²) ** 0.5`. -/
def heuristicSq (a b : Node) : ℕ := ((a.1 - b.1) ^ 2 + (a.2 - b.2) ^ 2).toNat

/-- The real number computed by `self.heuristic(a, b)`. -/
noncomputable def heuristicVal (a b : Node) : ℝ := Real.sqrt (heuristicSq a b)

/-- The step cost `self.heuristic(current, neighbor)` for an 8-neighbour
offset, as a g-score pair: `1` for a cardinal move, `√2` for a diagonal one.
`stepGV_val` proves this matches the heuristic on every offset in `dirs8`. -/
def stepGV (d : ℤ × ℤ) : GV := if d.1 = 0 ∨ d.2 = 0 then (1, 0) else (0, 1)

theorem stepGV_val (d : ℤ × ℤ) (hd : d ∈ dirs8) :
    gvVal (stepGV d) = Real.sqrt (((d.1 : ℝ)) ^ 2 + ((d.2 : ℝ)) ^ 2) := by
  fin_cases hd <;>
    simp [stepGV, gvVal] <;>
    norm_num [Real.sqrt_one, Real.sqrt_eq_one]

/-- `g_score` lookups; `none` models the dictionary's `float('inf')`. -/
def optAdd (x : Option GV) (c : GV) : Option GV :=
  x.map fun g => (g.1 + c.1, g.2 + c.2)

/-- `tentative_g_score < g_score[neighbor]`, with `inf` as in Python. -/
def optLtB : Option GV → Option GV → Bool
  | none, _ => false
  | some _, none => true
  | some a, some b => gvLt a b

/-- A heap entry `(f_score, node)` as pushed by `heapq.heappush`. -/
abbrev Entry := FV × Node

/-- Python tuple order on heap entries: `f` values compare as real numbers
(via the verified `fvLe`), ties are broken by integer order on the node. -/
def entryLt (a b : Entry) : Bool :=
  if fvLe a.1 b.1 then
    if fvLe b.1 a.1 then
      decide (a.2.1 < b.2.1) || (decide (a.2.1 = b.2.1) && decide (a.2.2 < b.2.2))
    else true
  else false

/-- `heapq.heappop`: removes and returns the least entry.  `find_path`
pushes a node only when no entry for it is in the heap, and node order
breaks `f` ties, so the minimum is unique and the heap's internal layout is
unobservable; the remainder is kept as a plain list. -/
def popMin (e : Entry) (l : List Entry) : Entry × List Entry :=
  match l with
  | [] => (e, [])
  | e' :: l' =>
    if entryLt e' e then
      let (m, rest) := popMin e' l'
      (m, e :: rest)
    else
      let (m, rest) := popMin e l'
      (m, e' :: rest)

/-- The mutable search state of one `find_path` call: the heap, and the
`came_from`, `g_score`, `f_score` dictionaries. -/
structure AState where
  open_set : List Entry
  came_from : Node → Option Node
  g_score : Node → Option GV
  f_score : Node → Option FV

/-- Body of the `for dr, dc in [...]` loop of `find_path`: relaxation of one
neighbour of `cur`. -/
def relax (g : Grid) (endNode : Node) (cur : Node) (st : AState) (d : ℤ × ℤ) : AState :=
  let nb : Node := (cur.1 + d.1, cur.2 + d.2)
  if inBounds g nb then
    if gridVal g nb == 1 then st
    else
      let tent := optAdd (st.g_score cur) (stepGV d)
      if optLtB tent (st.g_score nb) then
        match tent with
        | none => st
        | some tg =>
          let fv : FV := (tg, heuristicSq nb endNode)
          { open_set :=
              if decide (nb ∈ st.open_set.map Prod.snd) then st.open_set
              else st.open_set ++ [(fv, nb)]
            came_from := fun x => if x = nb then some cur else st.came_from x
            g_score := fun x => if x = nb then some tg else st.g_score x
            f_score := fun x => if x = nb then some fv else st.f_score x }
      else st
  else st

/-- `reconstruct_path`, with fuel: the Python `while current in came_from`
loop terminates on the maps `find_path` builds because `g_score` strictly
decreases along `came_from` links. -/
def reconstruct (cf : Node → Option Node) : ℕ → Node → Option (List Node)
  | 0, _ => none
  | fuel + 1, cur =>
    match cf cur with
    | none => some [cur]
    | some prev => (reconstruct cf fuel prev).map fun l => cur :: l

/-- Fuel for `reconstruct_path`. -/
def reconFuel (g : Grid) : ℕ := g.length * (g.headD []).length + 1

/-- The `while open_set:` loop of `find_path`. -/
def aloop (g : Grid) (endNode : Node) : ℕ → AState → Option (List Node)
  | 0, _ => none
  | fuel + 1, st =>
    match st.open_set with
    | [] => none
    | e :: rest =>
      let p := popMin e rest
      let cur := p.1.2
      if cur = endNode then
        (reconstruct st.came_from (reconFuel g) cur).map List.reverse
      else
        aloop g endNode fuel
          (dirs8.foldl (relax g endNode cur) { st with open_set := p.2 })

/-- Generous fuel for the A* main loop. -/
def aFuel (g : Grid) : ℕ := (g.length * (g.headD []).length + 2) ^ 2

/-- The search phase of `find_path`, entered once the endpoints have been
checked and the goal resolved. -/
def astarSearch (g : Grid) (startNode endNode : Node) : Option (List Node) :=
  aloop g endNode (aFuel g)
    { open_set := [(((0, 0), 0), startNode)]
      came_from := fun _ => none
      g_score := fun x => if x = startNode then some (0, 0) else none
      f_score := fun x =>
        if x = startNode then some ((0, 0), heuristicSq startNode endNode) else none }

/-- `AStar.find_path(start, end)` of `app/pathfinding.py`.  Arguments are
`(x, y)` pairs; the method swaps them into `(row, col)` nodes (`int()` is
the identity on the integer inputs modelled here). -/
def find_path (g : Grid) (s e : ℤ × ℤ) : Option (List Node) :=
  let startNode : Node := (s.2, s.1)
  let endNode : Node := (e.2, e.1)
  if !(inBounds g startNode) then none
  else if gridVal g startNode == 1 then none
  else if !(inBounds g endNode) then none
  else if gridVal g endNode == 1 then
    match find_closest_walkable_node g endNode with
    | none => none
    | some endNode' => astarSearch g startNode endNode'
  else astarSearch g startNode endNode

/-! ## Claim C1: adjacency of consecutive path cells -/

/-- `came_from` maps built by the search only record steps by one of the
8 compass offsets. -/
def CFAdj (cf : Node → Option Node) : Prop :=
  ∀ x y, cf x = some y → ∃ d ∈ dirs8, x = (y.1 + d.1, y.2 + d.2)

theorem relax_cf (g : Grid) (e cur : Node) (st : AState) (d : ℤ × ℤ) :
    (relax g e cur st d).came_from = st.came_from ∨
      (relax g e cur st d).came_from =
        fun x => if x = (cur.1 + d.1, cur.2 + d.2) then some cur else st.came_from x := by
  unfold relax
  dsimp only
  split
  · split
    · exact Or.inl rfl
    · split
      · split
        · exact Or.inl rfl
        · exact Or.inr rfl
      · exact Or.inl rfl
  · exact Or.inl rfl

theorem cfadj_relax (g : Grid) (e cur : Node) (st : AState)
    (hst : CFAdj st.came_from) (d : ℤ × ℤ) (hd : d ∈ dirs8) :
    CFAdj (relax g e cur st d).came_from := by
  rcases relax_cf g e cur st d with hcf | hcf
  · rw [hcf]; exact hst
  · rw [hcf]
    intro x y hxy
    dsimp only at hxy
    by_cases hx : x = (cur.1 + d.1, cur.2 + d.2)
    · rw [if_pos hx] at hxy
      exact ⟨d, hd, by rw [hx, (Option.some_inj.mp hxy).symm]⟩
    · rw [if_neg hx] at hxy
      exact hst x y hxy

theorem cfadj_foldl (g : Grid) (e cur : Node) (ds : List (ℤ × ℤ))
    (hds : ∀ d ∈ ds, d ∈ dirs8) :
    ∀ st : AState, CFAdj st.came_from →
      CFAdj ((ds.foldl (relax g e cur) st).came_from) := by
  induction ds with
  | nil => intro st h; exact h
  | cons d ds ih =>
    intro st h
    simp only [List.foldl_cons]
    exact ih (fun x hx => hds x (List.mem_cons_of_mem _ hx)) _
      (cfadj_relax g e cur st h d (hds d (List.mem_cons_self _ _)))

theorem reconstruct_chain (cf : Node → Option Node) :
    ∀ (fuel : ℕ) (cur : Node) (l : List Node),
      reconstruct cf fuel cur = some l →
      l.head? = some cur ∧ l.Chain' (fun a b => cf a = some b) := by
  intro fuel
  induction fuel with
  | zero => intro cur l h; cases h
  | succ fuel ih =>
    intro cur l h
    unfold reconstruct at h
    cases hcf : cf cur with
    | none =>
      rw [hcf] at h
      dsimp only at h
      have : l = [cur] := by
        cases h; rfl
      subst this
      exact ⟨rfl, List.chain'_singleton cur⟩
    | some prev =>
      rw [hcf] at h
      dsimp only at h
      cases hrec : reconstruct cf fuel prev with
      | none => rw [hrec] at h; cases h
      | some l' =>
        rw [hrec] at h
        simp only [Option.map_some'] at h
        have hl : l = cur :: l' := by
          cases h; rfl
        subst hl
        obtain ⟨hhead, hchain⟩ := ih prev l' hrec
        refine ⟨rfl, ?_⟩
        cases l' with
        | nil => cases hhead
        | cons a l'' =>
          have ha : a = prev := by
            simpa using hhead
          subst ha
          exact List.chain'_cons.mpr ⟨hcf, hchain⟩

theorem aloop_chain (g : Grid) (e : Node) :
    ∀ (fuel : ℕ) (st : AState) (p : List Node),
      CFAdj st.came_from → aloop g e fuel st = some p →
      p.Chain' (fun a b => ∃ d ∈ dirs8, b = (a.1 + d.1, a.2 + d.2)) := by
  intro fuel
  induction fuel with
  | zero => intro st p _ h; cases h
  | succ fuel ih =>
    intro st p hcf h
    unfold aloop at h
    cases hop : st.open_set with
    | nil => rw [hop] at h; cases h
    | cons e0 rest =>
      rw [hop] at h
      dsimp only at h
      by_cases hcur : (popMin e0 rest).1.2 = e
      · rw [if_pos hcur] at h
        cases hrec : reconstruct st.came_from (reconFuel g) (popMin e0 rest).1.2 with
        | none => rw [hrec] at h; cases h
        | some l =>
          rw [hrec] at h
          have hp : p = l.reverse := by
            cases h; rfl
          subst hp
          obtain ⟨_, hchain⟩ := reconstruct_chain st.came_from _ _ _ hrec
          rw [List.chain'_reverse]
          exact List.Chain'.imp (fun a b hab => hcf a b hab) hchain
      · rw [if_neg hcur] at h
        exact ih
          (dirs8.foldl (relax g e (popMin e0 rest).1.2)
            { st with open_set := (popMin e0 rest).2 }) p
          (cfadj_foldl g e (popMin e0 rest).1.2 dirs8 (fun d hd => hd)
            { st with open_set := (popMin e0 rest).2 } hcf) h

theorem astarSearch_chain (g : Grid) (a b : Node) (p : List Node)
    (h : astarSearch g a b = some p) :
    p.Chain' (fun x y => ∃ d ∈ dirs8, y = (x.1 + d.1, x.2 + d.2)) := by
  apply aloop_chain g b (aFuel g) _ p _ h
  intro x y hxy
  cases hxy

theorem find_path_chain (g : Grid) (s e : ℤ × ℤ) (p : List Node)
    (hp : find_path g s e = some p) :
    p.Chain' (fun x y => ∃ d ∈ dirs8, y = (x.1 + d.1, x.2 + d.2)) := by
  unfold find_path at hp
  dsimp only at hp
  split at hp
  · cases hp
  · split at hp
    · cases hp
    · split at hp
      · cases hp
      · split at hp
        · cases hrec : find_closest_walkable_node g (e.2, e.1) with
          | none => rw [hrec] at hp; cases hp
          | some e' => rw [hrec] at hp; exact astarSearch_chain g _ _ p hp
        · exact astarSearch_chain g _ _ p hp

/-- C1 is refuted: on the all-free 2×2 grid, `AStar.find_path` from `(0,0)`
to `(1,1)` returns the two-cell path taking one diagonal step, whose single
consecutive pair has `|Δrow| + |Δcol| = 2`, not 1: neighbour expansion is
8-directional, not 4-directional. -/
theorem c1_counterexample :
    find_path [[0, 0], [0, 0]] (0, 0) (1, 1) = some [(0, 0), (1, 1)] ∧
      ¬(|(1 : ℤ) - 0| + |(1 : ℤ) - 0| = 1) := by
  constructor
  · decide
  · decide

/-- C1 (amended): every pair of consecutive cells of a path returned by
`AStar.find_path` is 8-adjacent — `max (|Δrow|, |Δcol|) = 1` — because
neighbour expansion is 8-directional with Euclidean step costs and a
Euclidean heuristic. -/
theorem c1_amended (g : Grid) (s e : ℤ × ℤ) (p : List Node)
    (hp : find_path g s e = some p) (i : ℕ) (h : i + 1 < p.length) :
    max |(p.get ⟨i + 1, h⟩).1 - (p.get ⟨i, by omega⟩).1|
      |(p.get ⟨i + 1, h⟩).2 - (p.get ⟨i, by omega⟩).2| = 1 := by
  have hchain := find_path_chain g s e p hp
  have hrel := List.chain'_iff_get.mp hchain i (by omega)
  obtain ⟨d, hd, heq⟩ := hrel
  rw [heq]
  fin_cases hd <;> simp

/-- Witness for `c1_amended` on the 2×2 grid. -/
theorem c1_amended_witness :
    find_path [[0, 0], [0, 0]] (0, 0) (1, 1) = some [(0, 0), (1, 1)] ∧
      max |(1 : ℤ) - 0| |(1 : ℤ) - 0| = 1 :=
  ⟨by decide, c1_amended [[0, 0], [0, 0]] (0, 0) (1, 1) [(0, 0), (1, 1)]
    (by decide) 0 (by decide)⟩

/-! ## Claim C2: resolution of blocked endpoints -/

/-- 4-adjacency, the neighbourhood of the fallback BFS. -/
def adj4 (u v : Node) : Prop := ∃ d ∈ dirs4, v = (u.1 + d.1, u.2 + d.2)

/-- `ReachVia g t k c`: a length-`k` chain of 4-adjacent in-bounds cells
from `t` to `c` whose cells before the endpoint are all blocked — exactly
the cells `find_closest_walkable_node`'s BFS can traverse. -/
inductive ReachVia (g : Grid) (t : Node) : ℕ → Node → Prop
  | refl : inBounds g t = true → ReachVia g t 0 t
  | step {k : ℕ} {u v : Node} : ReachVia g t k u → gridVal g u ≠ 0 →
      adj4 u v → inBounds g v = true → ReachVia g t (k + 1) v

/-- Ghost variant of `fcwExpand` that carries BFS depths.  The depths never
influence control flow (`fcwExpand_sim`); they exist only for the proofs. -/
def fcwExpandG (g : Grid) (c : Node) (dep : ℕ) :
    List (ℤ × ℤ) → List (Node × ℕ) → List Node →
      Sum Node (List (Node × ℕ) × List Node)
  | [], q, vis => Sum.inr (q, vis)
  | d :: ds, q, vis =>
    let nb : Node := (c.1 + d.1, c.2 + d.2)
    if inBounds g nb && !(decide (nb ∈ vis)) then
      if gridVal g nb == 0 then Sum.inl nb
      else fcwExpandG g c dep ds (q ++ [(nb, dep + 1)]) (vis ++ [nb])
    else fcwExpandG g c dep ds q vis

/-- Ghost variant of the BFS loop. -/
def fcwLoopG (g : Grid) : ℕ → List (Node × ℕ) → List Node → Option Node
  | 0, _, _ => none
  | _ + 1, [], _ => none
  | fuel + 1, e :: q, vis =>
    match fcwExpandG g e.1 e.2 dirs4 q vis with
    | Sum.inl free => some free
    | Sum.inr (q', vis') => fcwLoopG g fuel q' vis'

theorem fcwExpand_sim (g : Grid) (c : Node) (dep : ℕ) :
    ∀ (ds : List (ℤ × ℤ)) (qd : List (Node × ℕ)) (vis : List Node),
      fcwExpand g c ds (qd.map Prod.fst) vis =
        (match fcwExpandG g c dep ds qd vis with
          | Sum.inl n => Sum.inl n
          | Sum.inr (q', v') => Sum.inr (q'.map Prod.fst, v')) := by
  intro ds
  induction ds with
  | nil => intro qd vis; rfl
  | cons d ds ih =>
    intro qd vis
    unfold fcwExpand fcwExpandG
    dsimp only
    by_cases h1 : (inBounds g (c.1 + d.1, c.2 + d.2) &&
        !(decide ((c.1 + d.1, c.2 + d.2) ∈ vis))) = true
    · rw [if_pos h1, if_pos h1]
      by_cases h2 : (gridVal g (c.1 + d.1, c.2 + d.2) == 0) = true
      · rw [if_pos h2, if_pos h2]
      · rw [if_neg h2, if_neg h2]
        have := ih (qd ++ [((c.1 + d.1, c.2 + d.2), dep + 1)]) (vis ++ [(c.1 + d.1, c.2 + d.2)])
        simpa using this
    · rw [if_neg h1, if_neg h1]
      exact ih qd vis

theorem fcwLoop_sim (g : Grid) :
    ∀ (fuel : ℕ) (qd : List (Node × ℕ)) (vis : List Node),
      fcwLoop g fuel (qd.map Prod.fst) vis = fcwLoopG g fuel qd vis := by
  intro fuel
  induction fuel with
  | zero => intro qd vis; rfl
  | succ fuel ih =>
    intro qd vis
    cases qd with
    | nil => rfl
    | cons e qd =>
      show fcwLoop g (fuel + 1) (e.1 :: qd.map Prod.fst) vis = _
      unfold fcwLoop fcwLoopG
      rw [fcwExpand_sim g e.1 e.2 dirs4 qd vis]
      cases hexp : fcwExpandG g e.1 e.2 dirs4 qd vis with
      | inl n => rfl
      | inr qv => exact ih qv.1 qv.2

/-- Loop-entry invariant of the ghost BFS: queue entries are sound and
depth-minimal, depths are nondecreasing and span at most two levels, the
visited list holds only blocked in-bounds cells, and every fully expanded
cell has all its in-bounds neighbours visited. -/
structure LoopInv (g : Grid) (t : Node) (qd : List (Node × ℕ)) (vis : List Node) : Prop where
  tmem : t ∈ vis
  visB : ∀ v ∈ vis, inBounds g v = true ∧ gridVal g v ≠ 0
  qsub : ∀ e ∈ qd, e.1 ∈ vis
  sound : ∀ e ∈ qd, ReachVia g t e.2 e.1
  minim : ∀ e ∈ qd, ∀ j, ReachVia g t j e.1 → e.2 ≤ j
  depPW : qd.Pairwise (fun a b => a.2 ≤ b.2 ∧ b.2 ≤ a.2 + 1)
  closed : ∀ v ∈ vis, (∀ e ∈ qd, e.1 ≠ v) →
    ∀ u, adj4 v u → inBounds g u = true → u ∈ vis

/-- Mid-expansion invariant: the head `(c, dep)` has been dequeued and the
offsets in `ds` are still to be processed. -/
structure MidInv (g : Grid) (t : Node) (c : Node) (dep : ℕ) (ds : List (ℤ × ℤ))
    (q : List (Node × ℕ)) (vis : List Node) : Prop where
  tmem : t ∈ vis
  cmem : c ∈ vis
  visB : ∀ v ∈ vis, inBounds g v = true ∧ gridVal g v ≠ 0
  qsub : ∀ e ∈ q, e.1 ∈ vis
  sound : ∀ e ∈ q, ReachVia g t e.2 e.1
  minim : ∀ e ∈ q, ∀ j, ReachVia g t j e.1 → e.2 ≤ j
  cSound : ReachVia g t dep c
  cMinim : ∀ j, ReachVia g t j c → dep ≤ j
  depLB : ∀ e ∈ q, dep ≤ e.2
  depUB : ∀ e ∈ q, e.2 ≤ dep + 1
  depPW : q.Pairwise (fun a b => a.2 ≤ b.2 ∧ b.2 ≤ a.2 + 1)
  closed : ∀ v ∈ vis, (∀ e ∈ q, e.1 ≠ v) → v ≠ c →
    ∀ u, adj4 v u → inBounds g u = true → u ∈ vis
  preDone : ∀ d ∈ dirs4, d ∉ ds →
    inBounds g (c.1 + d.1, c.2 + d.2) = true → (c.1 + d.1, c.2 + d.2) ∈ vis

/-- The key frontier bound: while the BFS is mid-expansion of a depth-`dep`
head, every unvisited cell is at distance at least `dep + 1`. -/
theorem mid_lower_bound {g : Grid} {t c : Node} {dep : ℕ} {ds : List (ℤ × ℤ)}
    {q : List (Node × ℕ)} {vis : List Node} (hm : MidInv g t c dep ds q vis) :
    ∀ {j : ℕ} {c' : Node}, ReachVia g t j c' → c' ∉ vis → dep + 1 ≤ j := by
  intro j c' hreach
  induction hreach with
  | refl h => intro hnv; exact absurd hm.tmem hnv
  | @step k u v hru hub hadj hinb ih =>
    intro _
    by_cases hu : u ∈ vis
    · by_cases hq : ∃ e ∈ q, e.1 = u
      · obtain ⟨e, he, hev⟩ := hq
        have h1 := hm.minim e he k (by rw [hev]; exact hru)
        have h2 := hm.depLB e he
        omega
      · by_cases hc : u = c
        · have := hm.cMinim k (by rw [hc] at hru; exact hru)
          omega
        · push_neg at hq
          have hvis := hm.closed u hu hq hc v hadj hinb
          exact absurd hvis (by assumption)
    · have := ih hu
      omega

theorem fcwExpandG_spec (g : Grid) (t c : Node) (dep : ℕ) :
    ∀ (ds : List (ℤ × ℤ)) (q : List (Node × ℕ)) (vis : List Node),
      (∀ d ∈ ds, d ∈ dirs4) → MidInv g t c dep ds q vis →
      (∀ r, fcwExpandG g c dep ds q vis = Sum.inl r →
        gridVal g r = 0 ∧ inBounds g r = true ∧ ReachVia g t (dep + 1) r ∧
          ∀ c' j, gridVal g c' = 0 → ReachVia g t j c' → dep + 1 ≤ j) ∧
      (∀ q' vis', fcwExpandG g c dep ds q vis = Sum.inr (q', vis') →
        LoopInv g t q' vis') := by
  intro ds
  induction ds with
  | nil =>
    intro q vis _ hm
    constructor
    · intro r hr; cases hr
    · intro q' vis' h
      have hq : q = q' ∧ vis = vis' := by
        unfold fcwExpandG at h
        injection h with h
        exact ⟨congrArg Prod.fst h, congrArg Prod.snd h⟩
      cases hq.1
      cases hq.2
      refine ⟨hm.tmem, hm.visB, hm.qsub, hm.sound, hm.minim, hm.depPW, ?_⟩
      intro v hv hnq u hadj hinb
      by_cases hvc : v = c
      · subst hvc
        obtain ⟨d, hd, hu⟩ := hadj
        rw [hu]
        exact hm.preDone d hd (List.not_mem_nil d) (hu ▸ hinb)
      · exact hm.closed v hv hnq hvc u hadj hinb
  | cons d ds ih =>
    intro q vis hds hm
    unfold fcwExpandG
    dsimp only
    by_cases h1 : (inBounds g (c.1 + d.1, c.2 + d.2) &&
        !(decide ((c.1 + d.1, c.2 + d.2) ∈ vis))) = true
    · rw [if_pos h1]
      rw [Bool.and_eq_true] at h1
      have hinb : inBounds g (c.1 + d.1, c.2 + d.2) = true := h1.1
      have hnvis : (c.1 + d.1, c.2 + d.2) ∉ vis := by
        have := h1.2
        simp only [Bool.not_eq_true', decide_eq_false_iff_not] at this
        exact this
      have hcblocked : gridVal g c ≠ 0 := (hm.visB c hm.cmem).2
      have hadjc : adj4 c (c.1 + d.1, c.2 + d.2) :=
        ⟨d, hds d (List.mem_cons_self d ds), rfl⟩
      by_cases h2 : (gridVal g (c.1 + d.1, c.2 + d.2) == 0) = true
      · rw [if_pos h2]
        constructor
        · intro r hr
          have hrb : r = (c.1 + d.1, c.2 + d.2) := by
            injection hr with hr; exact hr.symm
          subst hrb
          refine ⟨by simpa using h2, hinb,
            ReachVia.step hm.cSound hcblocked hadjc hinb, ?_⟩
          intro c' j hfree hreach
          have hnv : c' ∉ vis := fun hv => (hm.visB c' hv).2 hfree
          exact mid_lower_bound hm hreach hnv
        · intro q' vis' h; cases h
      · rw [if_neg h2]
        have hblocked : gridVal g (c.1 + d.1, c.2 + d.2) ≠ 0 := by
          simpa using h2
        have hreachNb : ReachVia g t (dep + 1) (c.1 + d.1, c.2 + d.2) :=
          ReachVia.step hm.cSound hcblocked hadjc hinb
        have hminNb : ∀ j, ReachVia g t j (c.1 + d.1, c.2 + d.2) → dep + 1 ≤ j :=
          fun j hr => mid_lower_bound hm hr hnvis
        apply ih (q ++ [((c.1 + d.1, c.2 + d.2), dep + 1)])
          (vis ++ [(c.1 + d.1, c.2 + d.2)])
          (fun d' hd' => hds d' (List.mem_cons_of_mem d hd'))
        refine
          { tmem := List.mem_append_left _ hm.tmem
            cmem := List.mem_append_left _ hm.cmem
            visB := ?_
            qsub := ?_
            sound := ?_
            minim := ?_
            cSound := hm.cSound
            cMinim := hm.cMinim
            depLB := ?_
            depUB := ?_
            depPW := ?_
            closed := ?_
            preDone := ?_ }
        · intro v hv
          rcases List.mem_append.mp hv with hv | hv
          · exact hm.visB v hv
          · have : v = (c.1 + d.1, c.2 + d.2) := by simpa using hv
            subst this
            exact ⟨hinb, hblocked⟩
        · intro e he
          rcases List.mem_append.mp he with he | he
          · exact List.mem_append_left _ (hm.qsub e he)
          · have : e = ((c.1 + d.1, c.2 + d.2), dep + 1) := by simpa using he
            subst this
            exact List.mem_append_right _ (by simp)
        · intro e he
          rcases List.mem_append.mp he with he | he
          · exact hm.sound e he
          · have : e = ((c.1 + d.1, c.2 + d.2), dep + 1) := by simpa using he
            subst this
            exact hreachNb
        · intro e he
          rcases List.mem_append.mp he with he | he
          · exact hm.minim e he
          · have : e = ((c.1 + d.1, c.2 + d.2), dep + 1) := by simpa using he
            subst this
            exact hminNb
        · intro e he
          rcases List.mem_append.mp he with he | he
          · exact hm.depLB e he
          · have : e = ((c.1 + d.1, c.2 + d.2), dep + 1) := by simpa using he
            subst this
            omega
        · intro e he
          rcases List.mem_append.mp he with he | he
          · exact hm.depUB e he
          · have : e = ((c.1 + d.1, c.2 + d.2), dep + 1) := by simpa using he
            subst this
            omega
        · rw [List.pairwise_append]
          refine ⟨hm.depPW, List.pairwise_singleton _ _, ?_⟩
          intro a ha b hb
          have hb' : b = ((c.1 + d.1, c.2 + d.2), dep + 1) := by simpa using hb
          subst hb'
          exact ⟨hm.depUB a ha, by have := hm.depLB a ha; omega⟩
        · intro v hv hnq hvc u hadj hinb'
          rcases List.mem_append.mp hv with hv | hv
          · have hnq' : ∀ e ∈ q, e.1 ≠ v :=
              fun e he => hnq e (List.mem_append_left _ he)
            exact List.mem_append_left _ (hm.closed v hv hnq' hvc u hadj hinb')
          · exfalso
            have : v = (c.1 + d.1, c.2 + d.2) := by simpa using hv
            exact hnq ((c.1 + d.1, c.2 + d.2), dep + 1)
              (List.mem_append_right _ (by simp)) this.symm
        · intro d' hd' hds' hinb'
          by_cases hdd : (c.1 + d'.1, c.2 + d'.2) = (c.1 + d.1, c.2 + d.2)
          · rw [hdd]
            exact List.mem_append_right _ (by simp)
          · have hnotin : d' ∉ d :: ds := by
              intro hmem
              rcases List.mem_cons.mp hmem with hmem | hmem
              · exact hdd (by rw [hmem])
              · exact hds' hmem
            exact List.mem_append_left _ (hm.preDone d' hd' hnotin hinb')
    · rw [if_neg h1]
      have hnext : inBounds g (c.1 + d.1, c.2 + d.2) = true →
          (c.1 + d.1, c.2 + d.2) ∈ vis := by
        intro hinb
        by_contra hnv
        exact h1 (by simp [hinb, hnv])
      apply ih q vis (fun d' hd' => hds d' (List.mem_cons_of_mem d hd'))
      refine
        { tmem := hm.tmem, cmem := hm.cmem, visB := hm.visB, qsub := hm.qsub
          sound := hm.sound, minim := hm.minim, cSound := hm.cSound
          cMinim := hm.cMinim, depLB := hm.depLB, depUB := hm.depUB
          depPW := hm.depPW, closed := hm.closed, preDone := ?_ }
      intro d' hd' hds' hinb'
      by_cases hdd : d' = d
      · subst hdd
        exact hnext hinb'
      · exact hm.preDone d' hd' (by
          intro hmem
          rcases List.mem_cons.mp hmem with hmem | hmem
          · exact hdd hmem
          · exact hds' hmem) hinb'

theorem fcwLoopG_spec (g : Grid) (t : Node) :
    ∀ (fuel : ℕ) (qd : List (Node × ℕ)) (vis : List Node) (r : Node),
      LoopInv g t qd vis → fcwLoopG g fuel qd vis = some r →
      gridVal g r = 0 ∧ inBounds g r = true ∧
        ∃ k, ReachVia g t k r ∧
          ∀ c' j, gridVal g c' = 0 → ReachVia g t j c' → k ≤ j := by
  intro fuel
  induction fuel with
  | zero => intro qd vis r _ h; cases h
  | succ fuel ih =>
    intro qd vis r hinv h
    cases qd with
    | nil => cases h
    | cons e qd =>
      unfold fcwLoopG at h
      have hmid : MidInv g t e.1 e.2 dirs4 qd vis := by
        refine
          { tmem := hinv.tmem
            cmem := hinv.qsub e (List.mem_cons_self e qd)
            visB := hinv.visB
            qsub := fun e' he' => hinv.qsub e' (List.mem_cons_of_mem e he')
            sound := fun e' he' => hinv.sound e' (List.mem_cons_of_mem e he')
            minim := fun e' he' => hinv.minim e' (List.mem_cons_of_mem e he')
            cSound := hinv.sound e (List.mem_cons_self e qd)
            cMinim := hinv.minim e (List.mem_cons_self e qd)
            depLB := ?_
            depUB := ?_
            depPW := (List.pairwise_cons.mp hinv.depPW).2
            closed := ?_
            preDone := fun d hd hnd _ => absurd hd hnd }
        · intro e' he'
          exact ((List.pairwise_cons.mp hinv.depPW).1 e' he').1
        · intro e' he'
          exact ((List.pairwise_cons.mp hinv.depPW).1 e' he').2
        · intro v hv hnq hvc u hadj hinb
          refine hinv.closed v hv ?_ u hadj hinb
          intro e' he'
          rcases List.mem_cons.mp he' with he' | he'
          · rw [he']; exact fun hh => hvc hh.symm
          · exact hnq e' he'
      obtain ⟨hinl, hinr⟩ := fcwExpandG_spec g t e.1 e.2 dirs4 qd vis (fun d hd => hd) hmid
      cases hexp : fcwExpandG g e.1 e.2 dirs4 qd vis with
      | inl free =>
        rw [hexp] at h
        dsimp only at h
        have hr : free = r := by injection h
        subst hr
        obtain ⟨h1, h2, h3, h4⟩ := hinl free hexp
        exact ⟨h1, h2, e.2 + 1, h3, h4⟩
      | inr qv =>
        rw [hexp] at h
        dsimp only at h
        exact ih qv.1 qv.2 r (hinr qv.1 qv.2 (by rw [hexp])) h

/-- Full characterisation of `find_closest_walkable_node` on an in-bounds
target: a returned cell is free, in bounds, and at minimal BFS distance
(through the blocked region) among all reachable free cells. -/
theorem find_closest_spec (g : Grid) (t : Node) (hin : inBounds g t = true)
    (r : Node) (h : find_closest_walkable_node g t = some r) :
    gridVal g r = 0 ∧ inBounds g r = true ∧
      ∃ k, ReachVia g t k r ∧
        ∀ c j, gridVal g c = 0 → ReachVia g t j c → k ≤ j := by
  unfold find_closest_walkable_node at h
  by_cases hfree : (gridVal g t == 0) = true
  · rw [if_pos hfree] at h
    have : t = r := by injection h
    subst this
    refine ⟨by simpa using hfree, hin, 0, ReachVia.refl hin, fun c j _ _ => Nat.zero_le j⟩
  · rw [if_neg hfree] at h
    have hblocked : gridVal g t ≠ 0 := by simpa using hfree
    have hsim := fcwLoop_sim g (fcwFuel g) [(t, 0)] [t]
    have h' : fcwLoopG g (fcwFuel g) [(t, 0)] [t] = some r := by
      rw [← hsim]; exact h
    refine fcwLoopG_spec g t (fcwFuel g) [(t, 0)] [t] r ?_ h'
    refine
      { tmem := by simp
        visB := ?_
        qsub := ?_
        sound := ?_
        minim := ?_
        depPW := List.pairwise_singleton _ _
        closed := ?_ }
    · intro v hv
      have : v = t := by simpa using hv
      subst this
      exact ⟨hin, hblocked⟩
    · intro e he
      have : e = (t, 0) := by simpa using he
      subst this
      simp
    · intro e he
      have : e = (t, 0) := by simpa using he
      subst this
      exact ReachVia.refl hin
    · intro e he
      have : e = (t, 0) := by simpa using he
      subst this
      exact fun j _ => Nat.zero_le j
    · intro v hv hnq
      exfalso
      have hvt : v = t := by simpa using hv
      exact hnq (t, 0) (by simp) (by rw [hvt])

/-- C2 is refuted on the start cell: in grid `[[1, 0]]` the start `(0, 0)`
is blocked and the free cell `(0, 1)` is one step away — the BFS would
resolve it — yet `find_path` returns `None` without resolving the start:
only the end cell is ever passed to `find_closest_walkable_node`. -/
theorem c2_counterexample :
    find_path [[1, 0]] (0, 0) (1, 0) = none ∧
      find_closest_walkable_node [[1, 0]] (0, 0) = some (0, 1) := by
  constructor
  · decide
  · decide

/-- C2 (amended): a blocked start makes `find_path` fail immediately with
`None` (no resolution); a blocked end is resolved through
`find_closest_walkable_node`, an unweighted 4-directional BFS whose result
is a free cell at minimal graph distance through the blocked region, and
the search then runs toward that resolved cell; if the BFS finds no free
cell (in particular when none is reachable), `find_path` returns `None`
without searching. -/
theorem c2_amended (g : Grid) (s e : ℤ × ℤ)
    (hs : inBounds g (s.2, s.1) = true) (he : inBounds g (e.2, e.1) = true) :
    (gridVal g (s.2, s.1) = 1 → find_path g s e = none) ∧
    (gridVal g (s.2, s.1) ≠ 1 → gridVal g (e.2, e.1) = 1 →
      (find_closest_walkable_node g (e.2, e.1) = none → find_path g s e = none) ∧
      (∀ r, find_closest_walkable_node g (e.2, e.1) = some r →
        find_path g s e = astarSearch g (s.2, s.1) r ∧
          gridVal g r = 0 ∧
          ∃ k, ReachVia g (e.2, e.1) k r ∧
            ∀ c j, gridVal g c = 0 → ReachVia g (e.2, e.1) j c → k ≤ j) ∧
      ((∀ c j, ReachVia g (e.2, e.1) j c → gridVal g c ≠ 0) →
        find_path g s e = none)) := by
  constructor
  · intro hb
    simp [find_path, hs, hb]
  · intro hnb hb
    refine ⟨?_, ?_, ?_⟩
    · intro hres
      simp [find_path, hs, he, hnb, hb, hres]
    · intro r hres
      refine ⟨by simp [find_path, hs, he, hnb, hb, hres], ?_, ?_⟩
      · exact (find_closest_spec g (e.2, e.1) he r hres).1
      · exact (find_closest_spec g (e.2, e.1) he r hres).2.2
    · intro hnone
      cases hres : find_closest_walkable_node g (e.2, e.1) with
      | none => simp [find_path, hs, he, hnb, hb, hres]
      | some r =>
        exfalso
        obtain ⟨hfree, _, k, hreach, _⟩ := find_closest_spec g (e.2, e.1) he r hres
        exact hnone r k hreach hfree

/-- Witness for `c2_amended`: grid `[[0, 1], [0, 1]]`, free start `(0, 0)`,
blocked end `(1, 1)` resolved by the BFS to the free cell `(1, 0)`. -/
theorem c2_amended_witness :
    find_path [[0, 1], [0, 1]] (0, 0) (1, 1) =
        astarSearch [[0, 1], [0, 1]] (0, 0) (1, 0) ∧
      gridVal [[0, 1], [0, 1]] (1, 0) = 0 ∧
      ∃ k, ReachVia [[0, 1], [0, 1]] (1, 1) k (1, 0) ∧
        ∀ c j, gridVal [[0, 1], [0, 1]] c = 0 →
          ReachVia [[0, 1], [0, 1]] (1, 1) j c → k ≤ j :=
  ((c2_amended [[0, 1], [0, 1]] (0, 0) (1, 1) (by decide) (by decide)).2
    (by decide) (by decide)).2.1 (1, 0) (by decide)

/-- C3 is refuted: an out-of-bounds start (grid `[[0]]`, start `(2, 0)`)
and an ordinary exhausted-search failure (grid `[[0, 1, 0]]`, both
endpoints free but disconnected) produce the very same result `None` —
`find_path` has no distinct `OutOfBounds` error to abort a request with,
and no caller could distinguish the two outcomes. -/
theorem c3_counterexample :
    find_path [[0]] (2, 0) (0, 0) = none ∧
      find_path [[0, 1, 0]] (0, 0) (2, 0) = none ∧
      find_path [[0]] (2, 0) (0, 0) = find_path [[0, 1, 0]] (0, 0) (2, 0) := by
  refine ⟨by decide, by decide, by decide⟩

/-- C3 (amended): an out-of-bounds start or end makes `find_path` return
`None`, the same value it returns for a blocked start, an unresolvable end,
or an exhausted search; no distinct error kind exists. -/
theorem c3_amended (g : Grid) (s e : ℤ × ℤ)
    (h : inBounds g (s.2, s.1) = false ∨ inBounds g (e.2, e.1) = false) :
    find_path g s e = none := by
  rcases h with h | h
  · simp [find_path, h]
  · cases hs : inBounds g (s.2, s.1) with
    | false => simp [find_path, hs]
    | true =>
      by_cases hb : (gridVal g (s.2, s.1) == 1) = true
      · simp [find_path, hs, hb]
      · simp [find_path, hs, hb, h]

/-- Witness for `c3_amended`: a start far outside a 1×2 grid. -/
theorem c3_amended_witness :
    (inBounds [[0, 0]] ((5 : ℤ), (0 : ℤ)) = false ∨
      inBounds [[0, 0]] ((0 : ℤ), (1 : ℤ)) = false) ∧
      find_path [[0, 0]] (0, 5) (1, 0) = none :=
  ⟨Or.inl (by decide), c3_amended [[0, 0]] (0, 5) (1, 0) (Or.inl (by decide))⟩

/-! ## Embedding of `create_grid_from_db` (claims C8, C10) -/

/-- Python `int()` on a rational: truncation toward zero. -/
def pyInt (q : ℚ) : ℤ := if 0 ≤ q then ⌊q⌋ else -⌊-q⌋

/-- One obstacle row as read by `create_grid_from_db`: the two corner
coordinates (`section_id`/`floor_level` are not consulted). -/
structure SectionRect where
  x1 : ℚ
  y1 : ℚ
  x2 : ℚ
  y2 : ℚ
deriving DecidableEq

/-- Python `range(a, b)` over integers; empty when `b ≤ a`. -/
def intRange (a b : ℤ) : List ℤ := (List.range (b - a).toNat).map fun (i : ℕ) => a + (i : ℤ)

theorem mem_intRange {a b x : ℤ} : x ∈ intRange a b ↔ a ≤ x ∧ x < b := by
  unfold intRange
  simp only [List.mem_map, List.mem_range]
  constructor
  · rintro ⟨i, hi, rfl⟩
    omega
  · intro ⟨h1, h2⟩
    exact ⟨(x - a).toNat, by omega, by omega⟩

/-- `grid[r][c] = 1`. -/
def setCell (g : Grid) (r c : ℤ) : Grid :=
  g.set r.toNat ((g.getD r.toNat []).set c.toNat 1)

/-- Innermost loop body of `create_grid_from_db`: write the cell if it lies
inside the grid, else do nothing (silent clipping). -/
def markCell (gh gw : ℤ) (r : ℤ) (g : Grid) (c : ℤ) : Grid :=
  if 0 ≤ r ∧ r < gh ∧ 0 ≤ c ∧ c < gw then setCell g r c else g

/-- `for c in range(min(x1,x2), max(x1,x2)+1)` for one row `r`. -/
def markRow (gh gw x1 x2 : ℤ) (g : Grid) (r : ℤ) : Grid :=
  (intRange (min x1 x2) (max x1 x2 + 1)).foldl (markCell gh gw r) g

/-- Rasterisation of one obstacle: corner normalisation by `min`/`max` and
the two nested `range` loops. -/
def markSection (gh gw : ℤ) (res : ℚ) (g : Grid) (sec : SectionRect) : Grid :=
  let x1 := pyInt (sec.x1 * res)
  let y1 := pyInt (sec.y1 * res)
  let x2 := pyInt (sec.x2 * res)
  let y2 := pyInt (sec.y2 * res)
  (intRange (min y1 y2) (max y1 y2 + 1)).foldl (markRow gh gw x1 x2) g

/-- `create_grid_from_db(sections, max_x, max_y, resolution)`. -/
def create_grid_from_db (sections : List SectionRect) (max_x max_y : ℚ)
    (resolution : ℚ) : Grid :=
  let gw : ℤ := pyInt (max_x * resolution) + 1
  let gh : ℤ := pyInt (max_y * resolution) + 1
  sections.foldl (markSection gh gw resolution)
    (List.replicate gh.toNat (List.replicate gw.toNat 0))

/-- The cell `(r, c)` is covered by the (normalised, scaled) obstacle. -/
def covers (res : ℚ) (sec : SectionRect) (r c : ℤ) : Prop :=
  min (pyInt (sec.y1 * res)) (pyInt (sec.y2 * res)) ≤ r ∧
    r ≤ max (pyInt (sec.y1 * res)) (pyInt (sec.y2 * res)) ∧
    min (pyInt (sec.x1 * res)) (pyInt (sec.x2 * res)) ≤ c ∧
    c ≤ max (pyInt (sec.x1 * res)) (pyInt (sec.x2 * res))

instance (res : ℚ) (sec : SectionRect) (r c : ℤ) : Decidable (covers res sec r c) := by
  unfold covers; infer_instance

/-- Dimension bookkeeping: `gh` rows of length `gw`. -/
def GridDims (g : Grid) (gh gw : ℤ) : Prop :=
  g.length = gh.toNat ∧ ∀ i, i < g.length → (g.getD i []).length = gw.toNat

theorem setCell_length (g : Grid) (r c : ℤ) : (setCell g r c).length = g.length := by
  unfold setCell
  simp

theorem setCell_row_length (g : Grid) (r c : ℤ) (i : ℕ) :
    ((setCell g r c).getD i []).length = (g.getD i []).length := by
  unfold setCell
  simp only [List.getD_eq_getElem?_getD]
  by_cases h : r.toNat = i
  · subst h
    by_cases hl : r.toNat < g.length
    · rw [List.getElem?_set_self hl]
      have hrow : g[r.toNat]? = some (g.getD r.toNat []) := by
        rw [List.getElem?_eq_getElem hl, List.getD_eq_getElem?_getD,
          List.getElem?_eq_getElem hl]
        rfl
      rw [hrow]
      simp
    · rw [List.set_eq_of_length_le (by omega)]
  · rw [List.getElem?_set_ne h]

theorem gridVal_setCell_eq (g : Grid) (r c : ℤ)
    (hr : r.toNat < g.length) (hc : c.toNat < (g.getD r.toNat []).length) :
    gridVal (setCell g r c) (r, c) = 1 := by
  unfold gridVal setCell
  dsimp only
  simp only [List.getD_eq_getElem?_getD]
  rw [List.getElem?_set_self hr]
  simp only [Option.getD_some]
  have hrow : (g.getD r.toNat [])[c.toNat]? = some ((g.getD r.toNat [])[c.toNat]) :=
    List.getElem?_eq_getElem hc
  rw [List.getElem?_set_self (by simpa using hc)]
  rfl

theorem gridVal_setCell_ne (g : Grid) (r c r' c' : ℤ)
    (h : r.toNat ≠ r'.toNat ∨ c.toNat ≠ c'.toNat) :
    gridVal (setCell g r c) (r', c') = gridVal g (r', c') := by
  unfold gridVal setCell
  dsimp only
  simp only [List.getD_eq_getElem?_getD]
  rcases h with h | h
  · rw [List.getElem?_set_ne h]
  · by_cases hr : r.toNat = r'.toNat
    · by_cases hl : r.toNat < g.length
      · rw [← hr, List.getElem?_set_self hl]
        have hrow : g[r.toNat]? = some (g.getD r.toNat []) := by
          rw [List.getElem?_eq_getElem hl, List.getD_eq_getElem?_getD,
            List.getElem?_eq_getElem hl]
          rfl
        rw [hrow]
        simp only [Option.getD_some]
        rw [List.getElem?_set_ne h]
      · rw [List.set_eq_of_length_le (by omega)]
    · rw [List.getElem?_set_ne hr]

theorem markCell_dims {g : Grid} {gh gw : ℤ} (r c : ℤ) (hg : GridDims g gh gw) :
    GridDims (markCell gh gw r g c) gh gw := by
  unfold markCell
  split
  · exact ⟨by rw [setCell_length]; exact hg.1,
      fun i hi => by
        rw [setCell_row_length]
        exact hg.2 i (by rw [setCell_length] at hi; exact hi)⟩
  · exact hg

theorem foldl_dims {β : Type} {gh gw : ℤ} (f : Grid → β → Grid)
    (hf : ∀ g b, GridDims g gh gw → GridDims (f g b) gh gw) :
    ∀ (l : List β) (g : Grid), GridDims g gh gw → GridDims (l.foldl f g) gh gw := by
  intro l
  induction l with
  | nil => intro g hg; exact hg
  | cons b l ih =>
    intro g hg
    exact ih (f g b) (hf g b hg)

theorem markRow_dims {g : Grid} {gh gw : ℤ} (x1 x2 r : ℤ) (hg : GridDims g gh gw) :
    GridDims (markRow gh gw x1 x2 g r) gh gw :=
  foldl_dims _ (fun _ c hg => markCell_dims r c hg) _ g hg

theorem markSection_dims {g : Grid} {gh gw : ℤ} (res : ℚ) (sec : SectionRect)
    (hg : GridDims g gh gw) : GridDims (markSection gh gw res g sec) gh gw :=
  foldl_dims _ (fun _ r hg => markRow_dims _ _ r hg) _ g hg

theorem replicate_dims (gh gw : ℤ) :
    GridDims (List.replicate gh.toNat (List.replicate gw.toNat (0 : ℕ))) gh gw := by
  constructor
  · simp
  · intro i hi
    simp only [List.length_replicate] at hi
    simp [List.getD_eq_getElem?_getD, List.getElem?_replicate, hi]

theorem create_grid_dims (sections : List SectionRect) (mx my res : ℚ) :
    GridDims (create_grid_from_db sections mx my res)
      (pyInt (my * res) + 1) (pyInt (mx * res) + 1) := by
  unfold create_grid_from_db
  exact foldl_dims _ (fun g sec hg => markSection_dims res sec hg) _ _
    (replicate_dims _ _)

theorem markCell_val {g : Grid} {gh gw : ℤ} (hg : GridDims g gh gw)
    (r c r' c' : ℤ) (hr0 : 0 ≤ r') (hr1 : r' < gh) (hc0 : 0 ≤ c') (hc1 : c' < gw) :
    gridVal (markCell gh gw r g c) (r', c') =
      if r = r' ∧ c = c' then 1 else gridVal g (r', c') := by
  unfold markCell
  split
  · rename_i hguard
    by_cases heq : r = r' ∧ c = c'
    · rw [if_pos heq, ← heq.1, ← heq.2]
      apply gridVal_setCell_eq
      · rw [hg.1]; omega
      · rw [hg.2 r.toNat (by rw [hg.1]; omega)]; omega
    · rw [if_neg heq]
      apply gridVal_setCell_ne
      rw [not_and_or] at heq
      rcases heq with h | h
      · left; omega
      · right; omega
  · rename_i hguard
    rw [if_neg]
    intro heq
    exact hguard ⟨by omega, by omega, by omega, by omega⟩

theorem foldl_markCell_val {gh gw : ℤ} (r r' c' : ℤ)
    (hr0 : 0 ≤ r') (hr1 : r' < gh) (hc0 : 0 ≤ c') (hc1 : c' < gw) :
    ∀ (cs : List ℤ) (g : Grid), GridDims g gh gw →
      gridVal (cs.foldl (markCell gh gw r) g) (r', c') =
        if r = r' ∧ c' ∈ cs then 1 else gridVal g (r', c') := by
  intro cs
  induction cs with
  | nil => intro g hg; simp
  | cons c cs ih =>
    intro g hg
    rw [List.foldl_cons, ih (markCell gh gw r g c) (markCell_dims r c hg),
      markCell_val hg r c r' c' hr0 hr1 hc0 hc1]
    by_cases hrr : r = r'
    · by_cases hcs : c' ∈ cs
      · simp [hrr, hcs]
      · by_cases hcc : c = c'
        · simp [hrr, hcc, hcs]
        · simp [hrr, hcs, hcc, Ne.symm hcc]
    · simp [hrr]

theorem markRow_val {g : Grid} {gh gw : ℤ} (hg : GridDims g gh gw)
    (x1 x2 r r' c' : ℤ)
    (hr0 : 0 ≤ r') (hr1 : r' < gh) (hc0 : 0 ≤ c') (hc1 : c' < gw) :
    gridVal (markRow gh gw x1 x2 g r) (r', c') =
      if r = r' ∧ min x1 x2 ≤ c' ∧ c' ≤ max x1 x2 then 1
      else gridVal g (r', c') := by
  unfold markRow
  rw [foldl_markCell_val r r' c' hr0 hr1 hc0 hc1 _ g hg]
  have hmem : c' ∈ intRange (min x1 x2) (max x1 x2 + 1) ↔
      min x1 x2 ≤ c' ∧ c' ≤ max x1 x2 := by
    rw [mem_intRange]; omega
  by_cases h : r = r' ∧ c' ∈ intRange (min x1 x2) (max x1 x2 + 1)
  · rw [if_pos h, if_pos ⟨h.1, hmem.mp h.2⟩]
  · rw [if_neg h, if_neg]
    intro hcon
    exact h ⟨hcon.1, hmem.mpr hcon.2⟩

theorem markSection_val {g : Grid} {gh gw : ℤ} (hg : GridDims g gh gw)
    (res : ℚ) (sec : SectionRect) (r' c' : ℤ)
    (hr0 : 0 ≤ r') (hr1 : r' < gh) (hc0 : 0 ≤ c') (hc1 : c' < gw) :
    gridVal (markSection gh gw res g sec) (r', c') =
      if covers res sec r' c' then 1 else gridVal g (r', c') := by
  unfold markSection
  dsimp only
  have hrows :
      ∀ (rs : List ℤ) (g : Grid), GridDims g gh gw →
        gridVal (rs.foldl (markRow gh gw (pyInt (sec.x1 * res)) (pyInt (sec.x2 * res))) g)
            (r', c') =
          if r' ∈ rs ∧ min (pyInt (sec.x1 * res)) (pyInt (sec.x2 * res)) ≤ c' ∧
              c' ≤ max (pyInt (sec.x1 * res)) (pyInt (sec.x2 * res)) then 1
          else gridVal g (r', c') := by
    intro rs
    induction rs with
    | nil => intro g hg; simp
    | cons rr rs ih =>
      intro g hg
      rw [List.foldl_cons, ih _ (markRow_dims _ _ rr hg),
        markRow_val hg _ _ rr r' c' hr0 hr1 hc0 hc1]
      by_cases hx : min (pyInt (sec.x1 * res)) (pyInt (sec.x2 * res)) ≤ c' ∧
          c' ≤ max (pyInt (sec.x1 * res)) (pyInt (sec.x2 * res))
      · by_cases hrs : r' ∈ rs
        · simp [hrs, hx]
        · by_cases hrr : rr = r'
          · simp [hrr, hrs, hx]
          · simp [hrs, hrr, hx, Ne.symm hrr]
      · rw [if_neg (fun hcon => hx hcon.2), if_neg (fun hcon => hx hcon.2),
          if_neg (fun hcon => hx hcon.2)]
  rw [hrows _ g hg]
  have hmem : r' ∈ intRange (min (pyInt (sec.y1 * res)) (pyInt (sec.y2 * res)))
      (max (pyInt (sec.y1 * res)) (pyInt (sec.y2 * res)) + 1) ↔
      min (pyInt (sec.y1 * res)) (pyInt (sec.y2 * res)) ≤ r' ∧
        r' ≤ max (pyInt (sec.y1 * res)) (pyInt (sec.y2 * res)) := by
    rw [mem_intRange]; omega
  unfold covers
  by_cases h : covers res sec r' c'
  · unfold covers at h
    rw [if_pos ⟨hmem.mpr ⟨h.1, h.2.1⟩, h.2.2.1, h.2.2.2⟩, if_pos h]
  · unfold covers at h
    rw [if_neg, if_neg h]
    intro hcon
    exact h ⟨(hmem.mp hcon.1).1, (hmem.mp hcon.1).2, hcon.2.1, hcon.2.2⟩

theorem create_grid_val (sections : List SectionRect) (mx my res : ℚ)
    (r c : ℤ) (hr0 : 0 ≤ r) (hr1 : r < pyInt (my * res) + 1)
    (hc0 : 0 ≤ c) (hc1 : c < pyInt (mx * res) + 1) :
    gridVal (create_grid_from_db sections mx my res) (r, c) =
      if ∃ sec ∈ sections, covers res sec r c then 1 else 0 := by
  unfold create_grid_from_db
  dsimp only
  have hfold :
      ∀ (secs : List SectionRect) (g : Grid),
        GridDims g (pyInt (my * res) + 1) (pyInt (mx * res) + 1) →
        gridVal (secs.foldl (markSection (pyInt (my * res) + 1)
            (pyInt (mx * res) + 1) res) g) (r, c) =
          if ∃ sec ∈ secs, covers res sec r c then 1 else gridVal g (r, c) := by
    intro secs
    induction secs with
    | nil => intro g hg; simp
    | cons sec secs ih =>
      intro g hg
      rw [List.foldl_cons, ih _ (markSection_dims res sec hg),
        markSection_val hg res sec r c hr0 hr1 hc0 hc1]
      by_cases hmem : ∃ s ∈ secs, covers res s r c
      · simp [hmem]
      · by_cases hcov : covers res sec r c
        · simp [hmem, hcov]
        · simp [hmem, hcov]
  rw [hfold sections _ (replicate_dims _ _)]
  have hinit : gridVal (List.replicate (pyInt (my * res) + 1).toNat
      (List.replicate (pyInt (mx * res) + 1).toNat (0 : ℕ))) (r, c) = 0 := by
    unfold gridVal
    simp only [List.getD_eq_getElem?_getD, List.getElem?_replicate]
    split <;> simp
  rw [hinit]

theorem grid_ext {g1 g2 : Grid} {gh gw : ℤ}
    (h1 : GridDims g1 gh gw) (h2 : GridDims g2 gh gw)
    (hval : ∀ r c : ℤ, 0 ≤ r → r < gh → 0 ≤ c → c < gw →
      gridVal g1 (r, c) = gridVal g2 (r, c)) : g1 = g2 := by
  have hrow1 : ∀ i, (hi : i < g1.length) → g1.getD i [] = g1[i] := by
    intro i hi
    rw [List.getD_eq_getElem?_getD, List.getElem?_eq_getElem hi]
    rfl
  have hrow2 : ∀ i, (hi : i < g2.length) → g2.getD i [] = g2[i] := by
    intro i hi
    rw [List.getD_eq_getElem?_getD, List.getElem?_eq_getElem hi]
    rfl
  apply List.ext_getElem (by rw [h1.1, h2.1])
  intro i hi1 hi2
  apply List.ext_getElem
  · rw [← hrow1 i hi1, ← hrow2 i hi2, h1.2 i hi1, h2.2 i hi2]
  · intro j hj1 hj2
    have hgh : (i : ℤ) < gh := by
      have := h1.1
      omega
    have hgw : (j : ℤ) < gw := by
      have hlen := h1.2 i hi1
      rw [hrow1 i hi1] at hlen
      omega
    have hv := hval i j (Int.ofNat_nonneg i) hgh (Int.ofNat_nonneg j) hgw
    unfold gridVal at hv
    simp only [Int.toNat_natCast] at hv
    rw [hrow1 i hi1, hrow2 i hi2] at hv
    rwa [List.getD_eq_getElem?_getD, List.getElem?_eq_getElem hj1,
      List.getD_eq_getElem?_getD, List.getElem?_eq_getElem hj2,
      Option.getD_some, Option.getD_some] at hv

/-- C8: `create_grid_from_db` depends only on the membership of the obstacle
list — any reordering, duplication or overlap of the same obstacles (with
equal extents and resolution) produces the identical grid, marking is an
idempotent union, corners are normalised by `min`/`max` per axis
(see `covers`), and zero obstacles yield the all-free grid. -/
theorem c8_theorem (s1 s2 : List SectionRect) (mx my res : ℚ)
    (hmem : ∀ sec, sec ∈ s1 ↔ sec ∈ s2) :
    create_grid_from_db s1 mx my res = create_grid_from_db s2 mx my res ∧
      create_grid_from_db [] mx my res =
        List.replicate (pyInt (my * res) + 1).toNat
          (List.replicate (pyInt (mx * res) + 1).toNat 0) := by
  constructor
  · apply grid_ext (create_grid_dims s1 mx my res) (create_grid_dims s2 mx my res)
    intro r c hr0 hr1 hc0 hc1
    rw [create_grid_val s1 mx my res r c hr0 hr1 hc0 hc1,
      create_grid_val s2 mx my res r c hr0 hr1 hc0 hc1]
    by_cases h : ∃ sec ∈ s1, covers res sec r c
    · obtain ⟨sec, hs, hcov⟩ := h
      rw [if_pos ⟨sec, hs, hcov⟩, if_pos ⟨sec, (hmem sec).mp hs, hcov⟩]
    · rw [if_neg h, if_neg]
      intro hcon
      obtain ⟨sec, hs, hcov⟩ := hcon
      exact h ⟨sec, (hmem sec).mpr hs, hcov⟩
  · rfl

/-- Witness for `c8_theorem`: the obstacle list `[A, B]` against its
reordered, duplicated variant `[B, A, A]`. -/
theorem c8_theorem_witness :
    (∀ sec : SectionRect,
        sec ∈ [⟨0, 0, 1, 1⟩, ⟨2, 1, 1, 2⟩] ↔
          sec ∈ [⟨2, 1, 1, 2⟩, ⟨0, 0, 1, 1⟩, ⟨0, 0, 1, 1⟩]) ∧
      create_grid_from_db [⟨0, 0, 1, 1⟩, ⟨2, 1, 1, 2⟩] 3 3 1 =
          create_grid_from_db [⟨2, 1, 1, 2⟩, ⟨0, 0, 1, 1⟩, ⟨0, 0, 1, 1⟩] 3 3 1 ∧
        create_grid_from_db [] 3 3 1 =
          List.replicate (pyInt ((3 : ℚ) * 1) + 1).toNat
            (List.replicate (pyInt ((3 : ℚ) * 1) + 1).toNat 0) :=
  ⟨by intro sec; simp [List.mem_cons]; tauto,
    c8_theorem [⟨0, 0, 1, 1⟩, ⟨2, 1, 1, 2⟩] [⟨2, 1, 1, 2⟩, ⟨0, 0, 1, 1⟩, ⟨0, 0, 1, 1⟩]
      3 3 1 (by intro sec; simp [List.mem_cons]; tauto)⟩

/-- C10: the grid built by `create_grid_from_db` has exactly
`int(max_y·res) + 1` rows of exactly `int(max_x·res) + 1` cells each,
whatever the obstacle coordinates; cells of an obstacle falling outside
those bounds (negative coordinates included) are silently skipped by the
bounds guard instead of being written. -/
theorem c10_theorem (sections : List SectionRect) (mx my res : ℚ)
    (hx : 0 ≤ mx * res) (hy : 0 ≤ my * res) :
    ((create_grid_from_db sections mx my res).length : ℤ) =
        pyInt (my * res) + 1 ∧
      ∀ row ∈ create_grid_from_db sections mx my res,
        (row.length : ℤ) = pyInt (mx * res) + 1 := by
  have hd := create_grid_dims sections mx my res
  have hgh : 0 ≤ pyInt (my * res) := by
    unfold pyInt
    rw [if_pos hy]
    exact Int.floor_nonneg.mpr hy
  have hgw : 0 ≤ pyInt (mx * res) := by
    unfold pyInt
    rw [if_pos hx]
    exact Int.floor_nonneg.mpr hx
  constructor
  · rw [hd.1]; omega
  · intro row hrow
    obtain ⟨n, hn⟩ := List.mem_iff_get.mp hrow
    have hlen := hd.2 n.1 n.2
    have hget : (create_grid_from_db sections mx my res).getD n.1 [] = row := by
      rw [List.getD_eq_getElem?_getD, List.getElem?_eq_getElem n.2]
      simpa using hn
    rw [hget] at hlen
    omega

/-- Witness for `c10_theorem`: one obstacle sticking out past all four
sides of a 3×3 grid still yields a grid of the stated dimensions. -/
theorem c10_theorem_witness :
    (0 ≤ (2 : ℚ) * 1) ∧
      ((create_grid_from_db [⟨-2, -2, 5, 5⟩] 2 2 1).length : ℤ) =
          pyInt ((2 : ℚ) * 1) + 1 ∧
        ∀ row ∈ create_grid_from_db [⟨-2, -2, 5, 5⟩] 2 2 1,
          (row.length : ℤ) = pyInt ((2 : ℚ) * 1) + 1 :=
  ⟨by norm_num, (c10_theorem [⟨-2, -2, 5, 5⟩] 2 2 1 (by norm_num) (by norm_num)).1,
    (c10_theorem [⟨-2, -2, 5, 5⟩] 2 2 1 (by norm_num) (by norm_num)).2⟩

/-! ## Embedding of `app/routing_utils.py` (claims C6, C7) -/

/-- `math.atan2(y, x)`: the argument of the point `(x, y)`, in `(-π, π]`. -/
noncomputable def atan2 (y x : ℝ) : ℝ := Complex.arg ⟨x, y⟩

/-- `math.degrees`. -/
noncomputable def degrees (x : ℝ) : ℝ := x * 180 / Real.pi

/-- The normalised angular difference computed by `get_direction_change`:
`atan2` bearings, conversion to degrees, then the two sequential
normalisation `if`s of the Python code. -/
noncomputable def turn_diff (p1 p2 p3 : ℝ × ℝ) : ℝ :=
  let angle1 := atan2 (p2.2 - p1.2) (p2.1 - p1.1)
  let angle2 := atan2 (p3.2 - p2.2) (p3.1 - p2.1)
  let d0 := degrees (angle2 - angle1)
  let d1 := if d0 > 180 then d0 - 360 else d0
  if d1 < -180 then d1 + 360 else d1

/-- `get_direction_change(p1, p2, p3)`. -/
noncomputable def get_direction_change (p1 p2 p3 : ℝ × ℝ) : String :=
  if -45 ≤ turn_diff p1 p2 p3 ∧ turn_diff p1 p2 p3 ≤ 45 then "Proceed straight"
  else if turn_diff p1 p2 p3 > 45 then "Turn left"
  else "Turn right"

/-- A path point together with the keys `enrich_path` writes
(`section_id`, `instruction`). -/
structure EPoint where
  x : ℝ
  y : ℝ
  section_id : Option ℕ
  instruction : Option String

instance : Inhabited EPoint := ⟨⟨0, 0, none, none⟩⟩

/-- A store-section row as read by `get_section_for_point`. -/
structure GSection where
  x1 : ℝ
  y1 : ℝ
  x2 : ℝ
  y2 : ℝ
  section_id : ℕ

/-- One entry of the `product_locations` mapping consumed by
`enrich_path`; `section_id` is present in the callers' dictionaries but is
never read by the enricher. -/
structure ProdLoc where
  x_coord : ℝ
  y_coord : ℝ
  section_id : ℕ

/-- `get_section_for_point(point, sections)`: first section whose
(unordered-corner) rectangle contains the point. -/
noncomputable def get_section_for_point (p : ℝ × ℝ) (sections : List GSection) :
    Option ℕ :=
  (sections.find? fun s =>
    decide (((s.x1 ≤ p.1 ∧ p.1 ≤ s.x2) ∨ (s.x2 ≤ p.1 ∧ p.1 ≤ s.x1)) ∧
      ((s.y1 ≤ p.2 ∧ p.2 ≤ s.y2) ∨ (s.y2 ≤ p.2 ∧ p.2 ≤ s.y1)))).map
    fun s => s.section_id

/-- Instruction update of one interior point from its window. -/
noncomputable def turnUpd (pm p pn : EPoint) : EPoint :=
  let instr := get_direction_change (pm.x, pm.y) (p.x, p.y) (pn.x, pn.y)
  if instr ≠ "Proceed straight" then { p with instruction := some instr } else p

/-- The turn-detection loop of `enrich_path` (`for i in range(1, len-1)`),
as a window recursion: the first and last points are left untouched; the
loop only ever reads the `x`/`y` keys of neighbours, which it never writes,
so the sequential Python updates commute with this formulation. -/
noncomputable def turnsGo (prev : EPoint) : List EPoint → List EPoint
  | [] => []
  | [last] => [last]
  | p :: next :: rest => turnUpd prev p next :: turnsGo p (next :: rest)

/-- Apply turn detection to a whole path. -/
noncomputable def addTurns : List EPoint → List EPoint
  | [] => []
  | p0 :: rest => p0 :: turnsGo p0 rest

/-- The scan for the path point closest to a product location: strict
improvement only, starting from `min_dist = inf` (`none`) and
`arrival_index = -1`. -/
noncomputable def arrivalFold (loc : ProdLoc) :
    List EPoint → ℤ → Option ℝ → ℤ → ℤ
  | [], _, _, bidx => bidx
  | p :: ps, i, best, bidx =>
    let dist := Real.sqrt ((p.x - loc.x_coord) ^ 2 + (p.y - loc.y_coord) ^ 2)
    match best with
    | none => arrivalFold loc ps (i + 1) (some dist) i
    | some b =>
      if dist < b then arrivalFold loc ps (i + 1) (some dist) i
      else arrivalFold loc ps (i + 1) (some b) bidx

/-- `enriched_path[arrival_index]['instruction'] = ...`. -/
noncomputable def setInstr (l : List EPoint) (i : ℕ) (s : String) : List EPoint :=
  l.set i (match l.get? i with
    | some p => { p with instruction := some s }
    | none => default)

/-- The section-association and turn-detection stages of `enrich_path`
(everything before the arrival loop). -/
noncomputable def preArrival (path : List EPoint) (sections : List GSection) :
    List EPoint :=
  let base := path.map fun p =>
    { p with section_id := get_section_for_point (p.x, p.y) sections
             instruction := none }
  if 2 < base.length then addTurns base else base

/-- `enrich_path(path, product_locations, sections)`.  A path of fewer than
two points is returned unchanged. -/
noncomputable def enrich_path (path : List EPoint)
    (product_locations : List (ℕ × ProdLoc)) (sections : List GSection) :
    List EPoint :=
  if path.length < 2 then path
  else
    product_locations.foldl (fun acc pl =>
      let idx := arrivalFold pl.2 acc 0 none (-1)
      if idx ≠ -1 then setInstr acc idx.toNat "You have arrived at your product"
      else acc) (preArrival path sections)

theorem turn_diff_range (p1 p2 p3 : ℝ × ℝ) :
    -180 ≤ turn_diff p1 p2 p3 ∧ turn_diff p1 p2 p3 ≤ 180 := by
  have hpi : (0 : ℝ) < Real.pi := Real.pi_pos
  have h1a := Complex.arg_le_pi (⟨p2.1 - p1.1, p2.2 - p1.2⟩ : ℂ)
  have h1b := Complex.neg_pi_lt_arg (⟨p2.1 - p1.1, p2.2 - p1.2⟩ : ℂ)
  have h2a := Complex.arg_le_pi (⟨p3.1 - p2.1, p3.2 - p2.2⟩ : ℂ)
  have h2b := Complex.neg_pi_lt_arg (⟨p3.1 - p2.1, p3.2 - p2.2⟩ : ℂ)
  unfold turn_diff atan2 degrees
  dsimp only
  constructor
  · by_cases hb : (Complex.arg ⟨p3.1 - p2.1, p3.2 - p2.2⟩ -
        Complex.arg ⟨p2.1 - p1.1, p2.2 - p1.2⟩) * 180 / Real.pi > 180
    · rw [if_pos hb]
      have hub : (Complex.arg ⟨p3.1 - p2.1, p3.2 - p2.2⟩ -
          Complex.arg ⟨p2.1 - p1.1, p2.2 - p1.2⟩) * 180 / Real.pi < 360 := by
        rw [div_lt_iff hpi]
        nlinarith
      rw [if_neg (by linarith)]
      linarith
    · rw [if_neg hb]
      by_cases hc : (Complex.arg ⟨p3.1 - p2.1, p3.2 - p2.2⟩ -
          Complex.arg ⟨p2.1 - p1.1, p2.2 - p1.2⟩) * 180 / Real.pi < -180
      · rw [if_pos hc]
        have hlb : -360 < (Complex.arg ⟨p3.1 - p2.1, p3.2 - p2.2⟩ -
            Complex.arg ⟨p2.1 - p1.1, p2.2 - p1.2⟩) * 180 / Real.pi := by
          rw [lt_div_iff hpi]
          nlinarith
        linarith
      · rw [if_neg hc]
        linarith
  · by_cases hb : (Complex.arg ⟨p3.1 - p2.1, p3.2 - p2.2⟩ -
        Complex.arg ⟨p2.1 - p1.1, p2.2 - p1.2⟩) * 180 / Real.pi > 180
    · rw [if_pos hb]
      rw [if_neg (by linarith)]
      have hub : (Complex.arg ⟨p3.1 - p2.1, p3.2 - p2.2⟩ -
          Complex.arg ⟨p2.1 - p1.1, p2.2 - p1.2⟩) * 180 / Real.pi < 360 := by
        rw [div_lt_iff hpi]
        nlinarith
      linarith
    · rw [if_neg hb]
      by_cases hc : (Complex.arg ⟨p3.1 - p2.1, p3.2 - p2.2⟩ -
          Complex.arg ⟨p2.1 - p1.1, p2.2 - p1.2⟩) * 180 / Real.pi < -180
      · rw [if_pos hc]
        linarith
      · rw [if_neg hc]
        linarith

theorem uturn_d0 :
    degrees (atan2 ((0 : ℝ) - 1) ((0 : ℝ) - 0) - atan2 ((1 : ℝ) - 0) ((0 : ℝ) - 0)) =
      -180 := by
  have e1 : (⟨(0 : ℝ) - 0, (1 : ℝ) - 0⟩ : ℂ) = Complex.I := by
    apply Complex.ext <;> simp
  have e2 : (⟨(0 : ℝ) - 0, (0 : ℝ) - 1⟩ : ℂ) = -Complex.I := by
    apply Complex.ext <;> simp
  unfold atan2
  rw [e1, e2, Complex.arg_I, Complex.arg_neg_I]
  unfold degrees
  field_simp
  ring

theorem turn_diff_uturn : turn_diff (0, 0) (0, 1) (0, 0) = -180 := by
  unfold turn_diff
  dsimp only
  rw [show ((0 : ℝ), (1 : ℝ)).2 - ((0 : ℝ), (0 : ℝ)).2 = (1 : ℝ) - 0 from by norm_num]
  rw [show ((0 : ℝ), (1 : ℝ)).1 - ((0 : ℝ), (0 : ℝ)).1 = (0 : ℝ) - 0 from by norm_num]
  rw [show ((0 : ℝ), (0 : ℝ)).2 - ((0 : ℝ), (1 : ℝ)).2 = (0 : ℝ) - 1 from by norm_num]
  rw [show ((0 : ℝ), (0 : ℝ)).1 - ((0 : ℝ), (1 : ℝ)).1 = (0 : ℝ) - 0 from by norm_num]
  rw [uturn_d0]
  rw [if_neg (by norm_num), if_neg (by norm_num)]

/-- Modelled from the spec (claim C6): the same bearings and raw
difference, but normalised into `(-180°, 180°]` — a raw difference of
exactly −180° is mapped to +180° — then classified by the same thresholds. -/
noncomputable def spec_turn_classification (p1 p2 p3 : ℝ × ℝ) : String :=
  let angle1 := atan2 (p2.2 - p1.2) (p2.1 - p1.1)
  let angle2 := atan2 (p3.2 - p2.2) (p3.1 - p2.1)
  let d0 := degrees (angle2 - angle1)
  let d := if d0 > 180 then d0 - 360 else if d0 ≤ -180 then d0 + 360 else d0
  if d > 45 then "Turn left"
  else if d < -45 then "Turn right"
  else "Proceed straight"

/-- C6 is refuted at a U-turn: going `(0,0) → (0,1) → (0,0)` the raw
angular difference is exactly −180°, which the code leaves at −180°
(classified "Turn right"), while the claim's normalisation into
`(-180°, 180°]` yields +180° and hence "turn left". -/
theorem c6_counterexample :
    get_direction_change (0, 0) (0, 1) (0, 0) = "Turn right" ∧
      spec_turn_classification (0, 0) (0, 1) (0, 0) = "Turn left" ∧
      turn_diff (0, 0) (0, 1) (0, 0) = -180 := by
  refine ⟨?_, ?_, turn_diff_uturn⟩
  · unfold get_direction_change
    rw [turn_diff_uturn]
    rw [if_neg (by norm_num), if_neg (by norm_num)]
  · unfold spec_turn_classification
    dsimp only
    rw [show ((0 : ℝ), (1 : ℝ)).2 - ((0 : ℝ), (0 : ℝ)).2 = (1 : ℝ) - 0 from by norm_num]
    rw [show ((0 : ℝ), (1 : ℝ)).1 - ((0 : ℝ), (0 : ℝ)).1 = (0 : ℝ) - 0 from by norm_num]
    rw [show ((0 : ℝ), (0 : ℝ)).2 - ((0 : ℝ), (1 : ℝ)).2 = (0 : ℝ) - 1 from by norm_num]
    rw [show ((0 : ℝ), (0 : ℝ)).1 - ((0 : ℝ), (1 : ℝ)).1 = (0 : ℝ) - 0 from by norm_num]
    rw [uturn_d0]
    norm_num

theorem turnsGo_get? (l : List EPoint) : ∀ (prev : EPoint) (i : ℕ),
    (turnsGo prev l).get? i =
      match l.get? i, l.get? (i + 1) with
      | some p, some pn =>
        some (turnUpd (if i = 0 then prev else (l.get? (i - 1)).getD default) p pn)
      | some p, none => some p
      | none, _ => none := by
  induction l with
  | nil =>
    intro prev i
    cases i <;> rfl
  | cons p l ih =>
    intro prev i
    cases l with
    | nil =>
      cases i with
      | zero => rfl
      | succ j => cases j <;> rfl
    | cons q rest =>
      cases i with
      | zero => rfl
      | succ j =>
        show (turnsGo p (q :: rest)).get? j = _
        rw [ih p j]
        cases j with
        | zero => rfl
        | succ k => rfl

theorem addTurns_interior (l : List EPoint) (i : ℕ) (h1 : 1 ≤ i)
    (h2 : i + 1 < l.length) :
    (addTurns l).get? i =
      some (turnUpd ((l.get? (i - 1)).getD default) ((l.get? i).getD default)
        ((l.get? (i + 1)).getD default)) := by
  cases l with
  | nil => simp at h2
  | cons p0 rest =>
    obtain ⟨j, rfl⟩ : ∃ j, i = j + 1 := ⟨i - 1, by omega⟩
    have hstep : (addTurns (p0 :: rest)).get? (j + 1) = (turnsGo p0 rest).get? j := rfl
    rw [hstep, turnsGo_get? rest p0 j]
    have hj1 : j < rest.length := by
      simp only [List.length_cons] at h2
      omega
    have hj2 : j + 1 < rest.length := by
      simp only [List.length_cons] at h2
      omega
    have ha : rest.get? j = some (rest.get ⟨j, hj1⟩) := List.get?_eq_get hj1
    have hb : rest.get? (j + 1) = some (rest.get ⟨j + 1, hj2⟩) := List.get?_eq_get hj2
    rw [ha, hb]
    dsimp only
    simp only [Nat.add_sub_cancel]
    cases j with
    | zero =>
      rw [if_pos rfl]
      have h0 : (p0 :: rest).get? 0 = some p0 := rfl
      have hA : (p0 :: rest).get? 1 = rest.get? 0 := rfl
      have hB : (p0 :: rest).get? 2 = rest.get? 1 := rfl
      rw [h0, hA, hB, ha, hb]
      rfl
    | succ k =>
      rw [if_neg (by omega)]
      have h0 : (p0 :: rest).get? (k + 1) = rest.get? k := rfl
      have hA : (p0 :: rest).get? (k + 2) = rest.get? (k + 1) := rfl
      have hB : (p0 :: rest).get? (k + 3) = rest.get? (k + 2) := rfl
      have hsub : k + 1 - 1 = k := rfl
      rw [hsub, h0, hA, hB, ha, hb]
      rfl

/-- Coordinates of the `i`-th point of a path (default-padded lookup). -/
noncomputable def ptCoords (path : List EPoint) (i : ℕ) : ℝ × ℝ :=
  (((path.get? i).getD default).x, ((path.get? i).getD default).y)

/-- C6 (amended): for every interior point the enricher computes the
incoming and outgoing bearings via `atan2` and normalises their signed
difference into `[-180°, 180°]` — a raw difference of exactly −180° stays
at −180° (it is not mapped to +180°) and is classified "Turn right" — then
stores "Turn left" for a difference above 45°, "Turn right" below −45°,
and no instruction otherwise, boundaries included. -/
theorem c6_amended (path : List EPoint) (sections : List GSection)
    (i : ℕ) (h1 : 1 ≤ i) (h2 : i + 1 < path.length) :
    (-180 ≤ turn_diff (ptCoords path (i - 1)) (ptCoords path i) (ptCoords path (i + 1)) ∧
      turn_diff (ptCoords path (i - 1)) (ptCoords path i) (ptCoords path (i + 1)) ≤ 180) ∧
    (enrich_path path [] sections).get? i =
      some { x := (ptCoords path i).1
             y := (ptCoords path i).2
             section_id := get_section_for_point (ptCoords path i) sections
             instruction :=
               if turn_diff (ptCoords path (i - 1)) (ptCoords path i)
                   (ptCoords path (i + 1)) > 45 then some "Turn left"
               else if turn_diff (ptCoords path (i - 1)) (ptCoords path i)
                   (ptCoords path (i + 1)) < -45 then some "Turn right"
               else none } := by
  refine ⟨turn_diff_range _ _ _, ?_⟩
  have hlen : ¬(path.length < 2) := by omega
  unfold enrich_path
  rw [if_neg hlen]
  show (preArrival path sections).get? i = _
  unfold preArrival
  dsimp only
  rw [if_pos (by rw [List.length_map]; omega)]
  rw [addTurns_interior _ i h1 (by rw [List.length_map]; omega)]
  simp only [List.get?_map]
  have e1 : path.get? (i - 1) = some (path.get ⟨i - 1, by omega⟩) :=
    List.get?_eq_get (by omega)
  have e2 : path.get? i = some (path.get ⟨i, by omega⟩) :=
    List.get?_eq_get (by omega)
  have e3 : path.get? (i + 1) = some (path.get ⟨i + 1, by omega⟩) :=
    List.get?_eq_get (by omega)
  unfold ptCoords
  rw [e1, e2, e3]
  simp only [Option.map_some', Option.getD_some]
  unfold turnUpd
  dsimp only
  by_cases hL : turn_diff
      ((path.get ⟨i - 1, by omega⟩).x, (path.get ⟨i - 1, by omega⟩).y)
      ((path.get ⟨i, by omega⟩).x, (path.get ⟨i, by omega⟩).y)
      ((path.get ⟨i + 1, by omega⟩).x, (path.get ⟨i + 1, by omega⟩).y) > 45
  · rw [show get_direction_change
        ((path.get ⟨i - 1, by omega⟩).x, (path.get ⟨i - 1, by omega⟩).y)
        ((path.get ⟨i, by omega⟩).x, (path.get ⟨i, by omega⟩).y)
        ((path.get ⟨i + 1, by omega⟩).x, (path.get ⟨i + 1, by omega⟩).y) = "Turn left" from by
      unfold get_direction_change
      rw [if_neg (fun hcon => by linarith [hcon.2]), if_pos hL]]
    rw [if_pos (by decide), if_pos hL]
  · by_cases hR : turn_diff
        ((path.get ⟨i - 1, by omega⟩).x, (path.get ⟨i - 1, by omega⟩).y)
        ((path.get ⟨i, by omega⟩).x, (path.get ⟨i, by omega⟩).y)
        ((path.get ⟨i + 1, by omega⟩).x, (path.get ⟨i + 1, by omega⟩).y) < -45
    · rw [show get_direction_change
          ((path.get ⟨i - 1, by omega⟩).x, (path.get ⟨i - 1, by omega⟩).y)
          ((path.get ⟨i, by omega⟩).x, (path.get ⟨i, by omega⟩).y)
          ((path.get ⟨i + 1, by omega⟩).x, (path.get ⟨i + 1, by omega⟩).y) =
            "Turn right" from by
        unfold get_direction_change
        rw [if_neg (fun hcon => by linarith [hcon.1]), if_neg hL]]
      rw [if_pos (by decide), if_neg hL, if_pos hR]
    · rw [show get_direction_change
          ((path.get ⟨i - 1, by omega⟩).x, (path.get ⟨i - 1, by omega⟩).y)
          ((path.get ⟨i, by omega⟩).x, (path.get ⟨i, by omega⟩).y)
          ((path.get ⟨i + 1, by omega⟩).x, (path.get ⟨i + 1, by omega⟩).y) =
            "Proceed straight" from by
        unfold get_direction_change
        rw [if_pos ⟨by linarith, by linarith⟩]]
      rw [if_neg (by decide), if_neg hL, if_neg hR]

/-- Witness for `c6_amended`: the three-point U-turn path. -/
theorem c6_amended_witness :
    (1 ≤ 1 ∧ 1 + 1 <
        ([⟨0, 0, none, none⟩, ⟨0, 1, none, none⟩, ⟨0, 0, none, none⟩] :
          List EPoint).length) ∧
      (-180 ≤ turn_diff
          (ptCoords [⟨0, 0, none, none⟩, ⟨0, 1, none, none⟩, ⟨0, 0, none, none⟩] 0)
          (ptCoords [⟨0, 0, none, none⟩, ⟨0, 1, none, none⟩, ⟨0, 0, none, none⟩] 1)
          (ptCoords [⟨0, 0, none, none⟩, ⟨0, 1, none, none⟩, ⟨0, 0, none, none⟩] 2) ∧
        turn_diff
          (ptCoords [⟨0, 0, none, none⟩, ⟨0, 1, none, none⟩, ⟨0, 0, none, none⟩] 0)
          (ptCoords [⟨0, 0, none, none⟩, ⟨0, 1, none, none⟩, ⟨0, 0, none, none⟩] 1)
          (ptCoords [⟨0, 0, none, none⟩, ⟨0, 1, none, none⟩, ⟨0, 0, none, none⟩] 2) ≤ 180) ∧
      (enrich_path [⟨0, 0, none, none⟩, ⟨0, 1, none, none⟩, ⟨0, 0, none, none⟩]
          [] []).get? 1 =
        some { x := (ptCoords [⟨0, 0, none, none⟩, ⟨0, 1, none, none⟩,
                 ⟨0, 0, none, none⟩] 1).1
               y := (ptCoords [⟨0, 0, none, none⟩, ⟨0, 1, none, none⟩,
                 ⟨0, 0, none, none⟩] 1).2
               section_id := get_section_for_point
                 (ptCoords [⟨0, 0, none, none⟩, ⟨0, 1, none, none⟩,
                   ⟨0, 0, none, none⟩] 1) []
               instruction :=
                 if turn_diff
                     (ptCoords [⟨0, 0, none, none⟩, ⟨0, 1, none, none⟩,
                       ⟨0, 0, none, none⟩] 0)
                     (ptCoords [⟨0, 0, none, none⟩, ⟨0, 1, none, none⟩,
                       ⟨0, 0, none, none⟩] 1)
                     (ptCoords [⟨0, 0, none, none⟩, ⟨0, 1, none, none⟩,
                       ⟨0, 0, none, none⟩] 2) > 45 then some "Turn left"
                 else if turn_diff
                     (ptCoords [⟨0, 0, none, none⟩, ⟨0, 1, none, none⟩,
                       ⟨0, 0, none, none⟩] 0)
                     (ptCoords [⟨0, 0, none, none⟩, ⟨0, 1, none, none⟩,
                       ⟨0, 0, none, none⟩] 1)
                     (ptCoords [⟨0, 0, none, none⟩, ⟨0, 1, none, none⟩,
                       ⟨0, 0, none, none⟩] 2) < -45 then some "Turn right"
                 else none } :=
  ⟨⟨le_refl 1, by decide⟩,
    c6_amended [⟨0, 0, none, none⟩, ⟨0, 1, none, none⟩, ⟨0, 0, none, none⟩] [] 1
      (le_refl 1) (by decide)⟩

/-- The Euclidean distance computed inside `enrich_path`'s arrival scan. -/
noncomputable def eDist (loc : ProdLoc) (p : EPoint) : ℝ :=
  Real.sqrt ((p.x - loc.x_coord) ^ 2 + (p.y - loc.y_coord) ^ 2)
theorem arrivalFold_go (loc : ProdLoc) :
    ∀ (pts : List EPoint) (i : ℤ) (b : ℝ) (bidx : ℤ),
      (arrivalFold loc pts i (some b) bidx = bidx ∧
        ∀ j, (hj : j < pts.length) → b ≤ eDist loc (pts.get ⟨j, hj⟩)) ∨
      (∃ k, ∃ hk : k < pts.length,
        arrivalFold loc pts i (some b) bidx = i + (k : ℤ) ∧
        eDist loc (pts.get ⟨k, hk⟩) < b ∧
        (∀ j, (hj : j < pts.length) →
          eDist loc (pts.get ⟨k, hk⟩) ≤ eDist loc (pts.get ⟨j, hj⟩)) ∧
        (∀ j, (hj : j < pts.length) → j < k →
          eDist loc (pts.get ⟨k, hk⟩) < eDist loc (pts.get ⟨j, hj⟩))) := by
  intro pts
  induction pts with
  | nil =>
    intro i b bidx
    left
    exact ⟨rfl, fun j hj => absurd hj (by simp)⟩
  | cons p ps ih =>
    intro i b bidx
    have hstep : arrivalFold loc (p :: ps) i (some b) bidx =
        if Real.sqrt ((p.x - loc.x_coord) ^ 2 + (p.y - loc.y_coord) ^ 2) < b
        then arrivalFold loc ps (i + 1)
          (some (Real.sqrt ((p.x - loc.x_coord) ^ 2 + (p.y - loc.y_coord) ^ 2))) i
        else arrivalFold loc ps (i + 1) (some b) bidx := rfl
    rw [hstep]
    by_cases hd : Real.sqrt ((p.x - loc.x_coord) ^ 2 + (p.y - loc.y_coord) ^ 2) < b
    · rw [if_pos hd]
      rcases ih (i + 1) (Real.sqrt ((p.x - loc.x_coord) ^ 2 + (p.y - loc.y_coord) ^ 2)) i with
        ⟨hr, hall⟩ | ⟨k, hk, hr, hlt, hmin, hstrict⟩
      · right
        refine ⟨0, by simp, by rw [hr]; ring, hd, ?_, ?_⟩
        · intro j hj
          cases j with
          | zero => exact le_refl _
          | succ j' => exact hall j' (by simpa using hj)
        · intro j hj hcon
          omega
      · right
        refine ⟨k + 1, by simpa using hk, by rw [hr]; push_cast; ring,
          lt_trans hlt hd, ?_, ?_⟩
        · intro j hj
          cases j with
          | zero => exact le_of_lt hlt
          | succ j' => exact hmin j' (by simpa using hj)
        · intro j hj hcon
          cases j with
          | zero => exact hlt
          | succ j' => exact hstrict j' (by simpa using hj) (by omega)
    · rw [if_neg hd]
      rcases ih (i + 1) b bidx with ⟨hr, hall⟩ | ⟨k, hk, hr, hlt, hmin, hstrict⟩
      · left
        refine ⟨hr, ?_⟩
        intro j hj
        cases j with
        | zero => exact not_lt.mp hd
        | succ j' => exact hall j' (by simpa using hj)
      · right
        have hb : eDist loc (ps.get ⟨k, hk⟩) <
            Real.sqrt ((p.x - loc.x_coord) ^ 2 + (p.y - loc.y_coord) ^ 2) :=
          lt_of_lt_of_le hlt (not_lt.mp hd)
        refine ⟨k + 1, by simpa using hk, by rw [hr]; push_cast; ring, hlt, ?_, ?_⟩
        · intro j hj
          cases j with
          | zero => exact le_of_lt hb
          | succ j' => exact hmin j' (by simpa using hj)
        · intro j hj hcon
          cases j with
          | zero => exact hb
          | succ j' => exact hstrict j' (by simpa using hj) (by omega)

theorem arrivalFold_top (loc : ProdLoc) (pts : List EPoint) (hne : pts ≠ []) :
    ∃ k, ∃ hk : k < pts.length,
      arrivalFold loc pts 0 none (-1) = (k : ℤ) ∧
      (∀ j, (hj : j < pts.length) →
        eDist loc (pts.get ⟨k, hk⟩) ≤ eDist loc (pts.get ⟨j, hj⟩)) ∧
      (∀ j, (hj : j < pts.length) → j < k →
        eDist loc (pts.get ⟨k, hk⟩) < eDist loc (pts.get ⟨j, hj⟩)) := by
  cases pts with
  | nil => exact absurd rfl hne
  | cons p ps =>
    have hstep : arrivalFold loc (p :: ps) 0 none (-1) =
        arrivalFold loc ps 1
          (some (Real.sqrt ((p.x - loc.x_coord) ^ 2 + (p.y - loc.y_coord) ^ 2))) 0 := rfl
    rw [hstep]
    rcases arrivalFold_go loc ps 1
        (Real.sqrt ((p.x - loc.x_coord) ^ 2 + (p.y - loc.y_coord) ^ 2)) 0 with
      ⟨hr, hall⟩ | ⟨k, hk, hr, hlt, hmin, hstrict⟩
    · refine ⟨0, by simp, by rw [hr]; simp, ?_, ?_⟩
      · intro j hj
        cases j with
        | zero => exact le_refl _
        | succ j' => exact hall j' (by simpa using hj)
      · intro j hj hcon
        omega
    · refine ⟨k + 1, by simpa using hk, by rw [hr]; push_cast; ring, ?_, ?_⟩
      · intro j hj
        cases j with
        | zero => exact le_of_lt hlt
        | succ j' => exact hmin j' (by simpa using hj)
      · intro j hj hcon
        cases j with
        | zero => exact hlt
        | succ j' => exact hstrict j' (by simpa using hj) (by omega)

theorem turnsGo_length (l : List EPoint) : ∀ prev, (turnsGo prev l).length = l.length := by
  induction l with
  | nil => intro prev; rfl
  | cons p l ih =>
    intro prev
    cases l with
    | nil => rfl
    | cons q rest =>
      show (turnUpd prev p q :: turnsGo p (q :: rest)).length = _
      simp [ih p]

theorem addTurns_length (l : List EPoint) : (addTurns l).length = l.length := by
  cases l with
  | nil => rfl
  | cons p rest =>
    show (p :: turnsGo p rest).length = _
    simp [turnsGo_length rest p]

theorem preArrival_length (path : List EPoint) (sections : List GSection) :
    (preArrival path sections).length = path.length := by
  unfold preArrival
  dsimp only
  split
  · rw [addTurns_length, List.length_map]
  · rw [List.length_map]

theorem turnUpd_coords (pm p pn : EPoint) :
    (turnUpd pm p pn).x = p.x ∧ (turnUpd pm p pn).y = p.y := by
  unfold turnUpd
  dsimp only
  split <;> exact ⟨rfl, rfl⟩

theorem turnsGo_coords (l : List EPoint) :
    ∀ prev j, ((turnsGo prev l).get? j).map (fun p => (p.x, p.y)) =
      (l.get? j).map (fun p => (p.x, p.y)) := by
  induction l with
  | nil => intro prev j; rfl
  | cons p l ih =>
    intro prev j
    cases l with
    | nil => rfl
    | cons q rest =>
      cases j with
      | zero =>
        show some ((turnUpd prev p q).x, (turnUpd prev p q).y) = some (p.x, p.y)
        rw [(turnUpd_coords prev p q).1, (turnUpd_coords prev p q).2]
      | succ j' =>
        show ((turnsGo p (q :: rest)).get? j').map _ = _
        exact ih p j'

theorem addTurns_coords (l : List EPoint) (j : ℕ) :
    ((addTurns l).get? j).map (fun p => (p.x, p.y)) =
      (l.get? j).map (fun p => (p.x, p.y)) := by
  cases l with
  | nil => rfl
  | cons p rest =>
    cases j with
    | zero => rfl
    | succ j' => exact turnsGo_coords rest p j'

theorem preArrival_coords (path : List EPoint) (sections : List GSection) (j : ℕ) :
    ((preArrival path sections).get? j).map (fun p => (p.x, p.y)) =
      (path.get? j).map (fun p => (p.x, p.y)) := by
  unfold preArrival
  dsimp only
  have hmap : ((path.map fun p =>
      { p with section_id := get_section_for_point (p.x, p.y) sections
               instruction := none }).get? j).map (fun p => (p.x, p.y)) =
      (path.get? j).map (fun p => (p.x, p.y)) := by
    rw [List.get?_map]
    cases path.get? j <;> rfl
  split
  · rw [addTurns_coords, hmap]
  · exact hmap

theorem arrivalFold_ignores_section (loc : ProdLoc) (sid : ℕ) :
    ∀ (pts : List EPoint) (i : ℤ) (b : Option ℝ) (bidx : ℤ),
      arrivalFold { loc with section_id := sid } pts i b bidx =
        arrivalFold loc pts i b bidx := by
  intro pts
  induction pts with
  | nil => intro i b bidx; rfl
  | cons p ps ih =>
    intro i b bidx
    cases b with
    | none =>
      show arrivalFold _ ps (i + 1) _ i = arrivalFold _ ps (i + 1) _ i
      exact ih (i + 1) _ i
    | some bv =>
      show (if _ then _ else _) = (if _ then _ else _)
      dsimp only
      split <;> exact ih _ _ _

theorem eDist_congr (loc : ProdLoc) {p q : EPoint} (hx : p.x = q.x) (hy : p.y = q.y) :
    eDist loc p = eDist loc q := by
  unfold eDist
  rw [hx, hy]

/-- C7 (amended): for a waypoint, `enrich_path` marks the path point of
minimum Euclidean distance to the waypoint's coordinates (ties broken by
the lowest index) with the constant arrival string
"You have arrived at your product"; the waypoint's section identifier is
not attached — outputs are identical for any section identifier. -/
theorem c7_amended (path : List EPoint) (pid : ℕ) (loc : ProdLoc)
    (sections : List GSection) (h2 : 2 ≤ path.length) :
    ∃ k, ∃ hk : k < path.length,
      enrich_path path [(pid, loc)] sections =
        setInstr (preArrival path sections) k "You have arrived at your product" ∧
      ((enrich_path path [(pid, loc)] sections).get? k).map (fun p => p.instruction) =
        some (some "You have arrived at your product") ∧
      (∀ j, (hj : j < path.length) →
        eDist loc (path.get ⟨k, hk⟩) ≤ eDist loc (path.get ⟨j, hj⟩)) ∧
      (∀ j, (hj : j < path.length) → j < k →
        eDist loc (path.get ⟨k, hk⟩) < eDist loc (path.get ⟨j, hj⟩)) ∧
      (∀ sid, enrich_path path [(pid, { loc with section_id := sid })] sections =
        enrich_path path [(pid, loc)] sections) := by
  have hplen := preArrival_length path sections
  have hne : preArrival path sections ≠ [] := by
    intro hcon
    rw [hcon] at hplen
    simp at hplen
    omega
  obtain ⟨k, hk, hfold, hmin, hstrict⟩ := arrivalFold_top loc (preArrival path sections) hne
  have hkp : k < path.length := by omega
  have hcoords : ∀ j, (hj : j < path.length) →
      eDist loc ((preArrival path sections).get ⟨j, by omega⟩) =
        eDist loc (path.get ⟨j, hj⟩) := by
    intro j hj
    have hpc := preArrival_coords path sections j
    rw [List.get?_eq_get (show j < (preArrival path sections).length by omega),
      List.get?_eq_get hj] at hpc
    simp only [Option.map_some', Option.some_inj, Prod.mk.injEq] at hpc
    exact eDist_congr loc hpc.1 hpc.2
  have henr : enrich_path path [(pid, loc)] sections =
      setInstr (preArrival path sections) k "You have arrived at your product" := by
    unfold enrich_path
    rw [if_neg (by omega)]
    show (if arrivalFold loc (preArrival path sections) 0 none (-1) ≠ -1
        then _ else _) = _
    rw [hfold, if_pos (by omega), Int.toNat_natCast]
  refine ⟨k, hkp, henr, ?_, ?_, ?_, ?_⟩
  · rw [henr]
    unfold setInstr
    rw [List.get?_eq_get (show k < (preArrival path sections).length by omega)]
    dsimp only
    rw [List.get?_set_eq_of_lt _ (show k < (preArrival path sections).length by omega)]
    rfl
  · intro j hj
    rw [← hcoords k hkp, ← hcoords j hj]
    exact hmin j (by omega)
  · intro j hj hlt
    rw [← hcoords k hkp, ← hcoords j hj]
    exact hstrict j (by omega) hlt
  · intro sid
    unfold enrich_path
    rw [if_neg (by omega), if_neg (by omega)]
    show (if arrivalFold { loc with section_id := sid } (preArrival path sections)
        0 none (-1) ≠ -1 then _ else _) =
      (if arrivalFold loc (preArrival path sections) 0 none (-1) ≠ -1
        then _ else _)
    rw [arrivalFold_ignores_section loc sid]

theorem c7_fold_seven :
    arrivalFold ⟨1, 0, 7⟩ [⟨0, 0, none, none⟩, ⟨1, 0, none, none⟩] 0 none (-1) = 1 := by
  have d0 : Real.sqrt (((0 : ℝ) - 1) ^ 2 + ((0 : ℝ) - 0) ^ 2) = 1 := by
    rw [show ((0 : ℝ) - 1) ^ 2 + ((0 : ℝ) - 0) ^ 2 = 1 by norm_num]
    exact Real.sqrt_one
  have d1 : Real.sqrt (((1 : ℝ) - 1) ^ 2 + ((0 : ℝ) - 0) ^ 2) = 0 := by
    rw [show ((1 : ℝ) - 1) ^ 2 + ((0 : ℝ) - 0) ^ 2 = 0 by norm_num]
    exact Real.sqrt_zero
  have e1 : arrivalFold ⟨1, 0, 7⟩ [⟨0, 0, none, none⟩, ⟨1, 0, none, none⟩] 0 none (-1) =
      arrivalFold ⟨1, 0, 7⟩ [⟨1, 0, none, none⟩] 1
        (some (Real.sqrt (((0 : ℝ) - 1) ^ 2 + ((0 : ℝ) - 0) ^ 2))) 0 := rfl
  have e2 : arrivalFold ⟨1, 0, 7⟩ [⟨1, 0, none, none⟩] 1
      (some (Real.sqrt (((0 : ℝ) - 1) ^ 2 + ((0 : ℝ) - 0) ^ 2))) 0 =
      if Real.sqrt (((1 : ℝ) - 1) ^ 2 + ((0 : ℝ) - 0) ^ 2) <
          Real.sqrt (((0 : ℝ) - 1) ^ 2 + ((0 : ℝ) - 0) ^ 2) then
        arrivalFold ⟨1, 0, 7⟩ [] 2
          (some (Real.sqrt (((1 : ℝ) - 1) ^ 2 + ((0 : ℝ) - 0) ^ 2))) 1
      else
        arrivalFold ⟨1, 0, 7⟩ [] 2
          (some (Real.sqrt (((0 : ℝ) - 1) ^ 2 + ((0 : ℝ) - 0) ^ 2))) 0 := rfl
  rw [e1, e2, if_pos (by rw [d0, d1]; norm_num)]
  rfl

/-- C7 is refuted on the section identifier: the arrival marker written by
`enrich_path` is the constant string "You have arrived at your product",
and two waypoints that differ only in their section identifier (7 vs 8)
yield identical enriched output — the section identifier is not attached
to the marker. -/
theorem c7_counterexample :
    enrich_path [⟨0, 0, none, none⟩, ⟨1, 0, none, none⟩] [(1, ⟨1, 0, 7⟩)] [] =
        enrich_path [⟨0, 0, none, none⟩, ⟨1, 0, none, none⟩] [(1, ⟨1, 0, 8⟩)] [] ∧
      enrich_path [⟨0, 0, none, none⟩, ⟨1, 0, none, none⟩] [(1, ⟨1, 0, 7⟩)] [] =
        [⟨0, 0, none, none⟩,
          ⟨1, 0, none, some "You have arrived at your product"⟩] := by
  have hfold8 :
      arrivalFold ⟨1, 0, 8⟩ [⟨0, 0, none, none⟩, ⟨1, 0, none, none⟩] 0 none (-1) = 1 := by
    have := arrivalFold_ignores_section (⟨1, 0, 7⟩ : ProdLoc) 8
      [⟨0, 0, none, none⟩, ⟨1, 0, none, none⟩] 0 none (-1)
    rw [show ({ (⟨1, 0, 7⟩ : ProdLoc) with section_id := 8 } : ProdLoc) = ⟨1, 0, 8⟩
      from rfl] at this
    rw [this, c7_fold_seven]
  have run7 : enrich_path [⟨0, 0, none, none⟩, ⟨1, 0, none, none⟩] [(1, ⟨1, 0, 7⟩)] [] =
      [⟨0, 0, none, none⟩, ⟨1, 0, none, some "You have arrived at your product"⟩] := by
    unfold enrich_path
    rw [if_neg (by norm_num)]
    show (if arrivalFold ⟨1, 0, 7⟩
        (preArrival [⟨0, 0, none, none⟩, ⟨1, 0, none, none⟩] []) 0 none (-1) ≠ -1
      then _ else _) = _
    rw [show preArrival [⟨0, 0, none, none⟩, ⟨1, 0, none, none⟩] [] =
      [⟨0, 0, none, none⟩, ⟨1, 0, none, none⟩] from rfl]
    rw [c7_fold_seven, if_pos (by norm_num)]
    rfl
  have run8 : enrich_path [⟨0, 0, none, none⟩, ⟨1, 0, none, none⟩] [(1, ⟨1, 0, 8⟩)] [] =
      [⟨0, 0, none, none⟩, ⟨1, 0, none, some "You have arrived at your product"⟩] := by
    unfold enrich_path
    rw [if_neg (by norm_num)]
    show (if arrivalFold ⟨1, 0, 8⟩
        (preArrival [⟨0, 0, none, none⟩, ⟨1, 0, none, none⟩] []) 0 none (-1) ≠ -1
      then _ else _) = _
    rw [show preArrival [⟨0, 0, none, none⟩, ⟨1, 0, none, none⟩] [] =
      [⟨0, 0, none, none⟩, ⟨1, 0, none, none⟩] from rfl]
    rw [hfold8, if_pos (by norm_num)]
    rfl
  exact ⟨by rw [run7, run8], run7⟩

/-- Witness for `c7_amended`: two points with the waypoint on the second. -/
theorem c7_amended_witness :
    2 ≤ ([⟨0, 0, none, none⟩, ⟨1, 0, none, none⟩] : List EPoint).length ∧
      ∃ k, ∃ hk : k < ([⟨0, 0, none, none⟩, ⟨1, 0, none, none⟩] : List EPoint).length,
        enrich_path [⟨0, 0, none, none⟩, ⟨1, 0, none, none⟩] [(5, ⟨1, 0, 9⟩)] [] =
          setInstr (preArrival [⟨0, 0, none, none⟩, ⟨1, 0, none, none⟩] []) k
            "You have arrived at your product" ∧
        ((enrich_path [⟨0, 0, none, none⟩, ⟨1, 0, none, none⟩]
            [(5, ⟨1, 0, 9⟩)] []).get? k).map (fun p => p.instruction) =
          some (some "You have arrived at your product") ∧
        (∀ j, (hj : j < ([⟨0, 0, none, none⟩, ⟨1, 0, none, none⟩] : List EPoint).length) →
          eDist ⟨1, 0, 9⟩
              (([⟨0, 0, none, none⟩, ⟨1, 0, none, none⟩] : List EPoint).get ⟨k, hk⟩) ≤
            eDist ⟨1, 0, 9⟩
              (([⟨0, 0, none, none⟩, ⟨1, 0, none, none⟩] : List EPoint).get ⟨j, hj⟩)) ∧
        (∀ j, (hj : j < ([⟨0, 0, none, none⟩, ⟨1, 0, none, none⟩] : List EPoint).length) →
          j < k →
          eDist ⟨1, 0, 9⟩
              (([⟨0, 0, none, none⟩, ⟨1, 0, none, none⟩] : List EPoint).get ⟨k, hk⟩) <
            eDist ⟨1, 0, 9⟩
              (([⟨0, 0, none, none⟩, ⟨1, 0, none, none⟩] : List EPoint).get ⟨j, hj⟩)) ∧
        (∀ sid, enrich_path [⟨0, 0, none, none⟩, ⟨1, 0, none, none⟩]
            [(5, { (⟨1, 0, 9⟩ : ProdLoc) with section_id := sid })] [] =
          enrich_path [⟨0, 0, none, none⟩, ⟨1, 0, none, none⟩] [(5, ⟨1, 0, 9⟩)] []) :=
  ⟨by decide,
    c7_amended [⟨0, 0, none, none⟩, ⟨1, 0, none, none⟩] 5 ⟨1, 0, 9⟩ [] (by decide)⟩

/-! ## Embedding of `app/routes/cart_routes.py` (claims C4, C5, C9)

Python float values are exact binary rationals; they are modelled by exact
fractions kept unreduced (`Fx`), so that every arithmetic step is plain
integer arithmetic and remains kernel-computable.  Comparisons are by
value, as in Python (`Fx.ltB_iff` etc. certify them against ℝ). -/

/-- An exact rational: an unreduced fraction with positive denominator. -/
structure Fx where
  num : ℤ
  den : ℤ
  pos : 0 < den

instance : DecidableEq Fx := fun a b =>
  if h : a.num = b.num ∧ a.den = b.den then
    isTrue (by cases a; cases b; cases h.1; cases h.2; rfl)
  else
    isFalse (by intro hcon; cases hcon; exact h ⟨rfl, rfl⟩)

/-- The real value denoted by an `Fx`. -/
noncomputable def Fx.val (a : Fx) : ℝ := (a.num : ℝ) / (a.den : ℝ)

def Fx.ofInt (n : ℤ) : Fx := ⟨n, 1, by norm_num⟩

def Fx.add (a b : Fx) : Fx :=
  ⟨a.num * b.den + b.num * a.den, a.den * b.den, mul_pos a.pos b.pos⟩

def Fx.sub (a b : Fx) : Fx :=
  ⟨a.num * b.den - b.num * a.den, a.den * b.den, mul_pos a.pos b.pos⟩

def Fx.mul (a b : Fx) : Fx := ⟨a.num * b.num, a.den * b.den, mul_pos a.pos b.pos⟩

/-- Halving (`/ 2`). -/
def Fx.half (a : Fx) : Fx := ⟨a.num, 2 * a.den, by have := a.pos; omega⟩

/-- `abs`. -/
def Fx.absF (a : Fx) : Fx := ⟨|a.num|, a.den, a.pos⟩

/-- Value comparison `a <= b` by cross-multiplication. -/
def Fx.leB (a b : Fx) : Bool := decide (a.num * b.den ≤ b.num * a.den)

/-- Value comparison `a < b`. -/
def Fx.ltB (a b : Fx) : Bool := decide (a.num * b.den < b.num * a.den)

/-- Value equality `a == b` (Python float equality). -/
def Fx.beq (a b : Fx) : Bool := decide (a.num * b.den = b.num * a.den)

theorem Fx.leB_iff (a b : Fx) : Fx.leB a b = true ↔ a.val ≤ b.val := by
  unfold Fx.leB Fx.val
  rw [decide_eq_true_eq, div_le_div_iff (by exact_mod_cast a.pos) (by exact_mod_cast b.pos)]
  constructor
  · intro h; exact_mod_cast h
  · intro h; exact_mod_cast h

theorem Fx.ltB_iff (a b : Fx) : Fx.ltB a b = true ↔ a.val < b.val := by
  unfold Fx.ltB Fx.val
  rw [decide_eq_true_eq, div_lt_div_iff (by exact_mod_cast a.pos) (by exact_mod_cast b.pos)]
  constructor
  · intro h; exact_mod_cast h
  · intro h; exact_mod_cast h

theorem Fx.denR_ne (a : Fx) : ((a.den : ℝ)) ≠ 0 :=
  Int.cast_ne_zero.mpr (ne_of_gt a.pos)

theorem Fx.beq_iff (a b : Fx) : Fx.beq a b = true ↔ a.val = b.val := by
  unfold Fx.beq Fx.val
  rw [decide_eq_true_eq, div_eq_div_iff a.denR_ne b.denR_ne]
  constructor
  · intro h
    have h2 : ((a.num * b.den : ℤ) : ℝ) = ((b.num * a.den : ℤ) : ℝ) := by exact_mod_cast h
    push_cast at h2
    linarith
  · intro h
    have h2 : ((a.num * b.den : ℤ) : ℝ) = ((b.num * a.den : ℤ) : ℝ) := by push_cast; linarith
    exact_mod_cast h2

theorem Fx.val_ofInt (n : ℤ) : (Fx.ofInt n).val = (n : ℝ) := by
  unfold Fx.ofInt Fx.val
  simp

theorem Fx.val_add (a b : Fx) : (Fx.add a b).val = a.val + b.val := by
  unfold Fx.add Fx.val
  have ha := a.denR_ne
  have hb := b.denR_ne
  dsimp only
  push_cast
  field_simp

theorem Fx.val_sub (a b : Fx) : (Fx.sub a b).val = a.val - b.val := by
  unfold Fx.sub Fx.val
  have ha := a.denR_ne
  have hb := b.denR_ne
  dsimp only
  push_cast
  field_simp
  ring

theorem Fx.val_mul (a b : Fx) : (Fx.mul a b).val = a.val * b.val := by
  unfold Fx.mul Fx.val
  have ha := a.denR_ne
  have hb := b.denR_ne
  dsimp only
  push_cast
  rw [div_mul_div_comm]

theorem Fx.val_half (a : Fx) : (Fx.half a).val = a.val / 2 := by
  unfold Fx.half Fx.val
  have ha := a.denR_ne
  dsimp only
  push_cast
  rw [div_div]
  ring_nf

/-- `round(x, 2)`: nearest multiple of 1/100, ties to even (Python `round`).
(The Python program rounds binary floats; in this exact-rational model that
is rounding the exact value, which is the idealization used throughout.) -/
def Fx.round2 (a : Fx) : Fx :=
  let v : ℤ := a.num * 100
  let q : ℤ := v / a.den
  let r : ℤ := v % a.den
  let k : ℤ :=
    if 2 * r < a.den then q
    else if a.den < 2 * r then q + 1
    else if q % 2 = 0 then q else q + 1
  ⟨k, 100, by norm_num⟩

/-- `GRID_RES = 0.05` (cart_routes.py line 22). -/
def GRID_RES : Fx := ⟨1, 20, by norm_num⟩

/-- A walkable point `(x, y)`: a Python float pair. -/
def CPoint : Type := Fx × Fx

instance : DecidableEq CPoint := instDecidableEqProd

/-- Python `==` on coordinate tuples: componentwise float (value) equality. -/
def pBeq (a b : CPoint) : Bool := Fx.beq a.1 b.1 && Fx.beq a.2 b.2

/-- Python `min(a, b)`: `a` when `a <= b`. -/
def fxMin (a b : Fx) : Fx := if Fx.leB a b then a else b

/-- Python `max(a, b)`: `a` when `b <= a`. -/
def fxMax (a b : Fx) : Fx := if Fx.leB b a then a else b

/-- Membership in the modelled point set, by Python tuple equality. -/
def pMem (l : List CPoint) (p : CPoint) : Bool := l.any (fun q => pBeq q p)

/-- `set.add`: the set is modelled as a duplicate-free (by value) list in
insertion order.  (Python set iteration order is unspecified; every claim
proved below is insensitive to it except where noted in comments.) -/
def addPt (l : List CPoint) (p : CPoint) : List CPoint :=
  if pMem l p then l else l ++ [p]

/-- One aisle dictionary entry: key (rounded center) and `[lo, hi]` range. -/
def Aisles : Type := List (Fx × (Fx × Fx))

/-- Dict insert-or-update for the aisle dictionaries (lines 43-46 / 49-52):
new keys append in insertion order, an existing key updates its range to
`[min(lo, lo'), max(hi, hi')]` in place. -/
def updAisle (l : Aisles) (key lo hi : Fx) : Aisles :=
  match l with
  | [] => [(key, (lo, hi))]
  | (k, r) :: rest =>
    if Fx.beq k key then (k, (fxMin r.1 lo, fxMax r.2 hi)) :: rest
    else (k, r) :: updAisle rest key lo hi

/-- A `store_sections` row as read by the handler (with its id for step 4). -/
structure SecRow where
  section_id : ℕ
  x1 : Fx
  y1 : Fx
  x2 : Fx
  y2 : Fx

/-- Fuel bounding the `while x <= hi` loop with step 0.05: the loop runs
`floor((hi - lo) * 20) + 1` times when `lo <= hi`, so this value suffices. -/
def aisleFuel (lo hi : Fx) : ℕ :=
  (((Fx.sub hi lo).num * 20) / (Fx.sub hi lo).den).toNat + 2

/-- `while x <= x_range[1]: add((round(x, 2), y)); x += step` (lines 56-59). -/
def hPoints : ℕ → Fx → Fx → Fx → List CPoint → List CPoint
  | 0, _, _, _, acc => acc
  | fuel + 1, x, hi, y, acc =>
    if Fx.leB x hi then
      hPoints fuel (Fx.add x GRID_RES) hi y (addPt acc (Fx.round2 x, y))
    else acc

/-- `while y <= y_range[1]: add((x, round(y, 2))); y += step` (lines 62-65). -/
def vPoints : ℕ → Fx → Fx → Fx → List CPoint → List CPoint
  | 0, _, _, _, acc => acc
  | fuel + 1, y, hi, x, acc =>
    if Fx.leB y hi then
      vPoints fuel (Fx.add y GRID_RES) hi x (addPt acc (x, Fx.round2 y))
    else acc

/-- `build_centerline_graph` (cart_routes.py lines 27-72): classify each
section as a horizontal or vertical aisle, collect per-center ranges, lay
points along each aisle at 0.05 steps, then add every h-aisle/v-aisle
intersection.  Returns the value assigned to the module-global
`CENTERLINE_SET`. -/
def build_centerline_graph (sections : List SecRow) : List CPoint :=
  let aisles := sections.foldl
    (fun (hv : Aisles × Aisles) sec =>
      let x1 := fxMin sec.x1 sec.x2
      let x2 := fxMax sec.x1 sec.x2
      let y1 := fxMin sec.y1 sec.y2
      let y2 := fxMax sec.y1 sec.y2
      if Fx.ltB (Fx.sub y2 y1) (Fx.sub x2 x1) then
        (updAisle hv.1 (Fx.round2 (Fx.half (Fx.add y1 y2))) x1 x2, hv.2)
      else
        (hv.1, updAisle hv.2 (Fx.round2 (Fx.half (Fx.add x1 x2))) y1 y2))
    ([], [])
  let pts1 := aisles.1.foldl
    (fun acc kv => hPoints (aisleFuel kv.2.1 kv.2.2) kv.2.1 kv.2.2 kv.1 acc) []
  let pts2 := aisles.2.foldl
    (fun acc kv => vPoints (aisleFuel kv.2.1 kv.2.2) kv.2.1 kv.2.2 kv.1 acc) pts1
  aisles.1.foldl
    (fun acc ky => aisles.2.foldl (fun acc2 kx => addPt acc2 (kx.1, ky.1)) acc) pts2

/-- Squared Euclidean distance, exactly.  `math.dist` is its square root;
square root is monotone, so `min` by `math.dist` picks the same element as
`min` by this key (certified where it matters via `Fx.ltB_iff` and
`Real.sqrt`, see the C5 development). -/
def distSqF (a b : CPoint) : Fx :=
  Fx.add (Fx.mul (Fx.sub a.1 b.1) (Fx.sub a.1 b.1))
         (Fx.mul (Fx.sub a.2 b.2) (Fx.sub a.2 b.2))

/-- Python `min(iterable, key=k)`: keeps the first element, switches only on
strictly smaller key - i.e. returns the first minimal element. -/
def pyMinBy (key : CPoint → Fx) : CPoint → List CPoint → CPoint
  | best, [] => best
  | best, p :: ps =>
    if Fx.ltB (key p) (key best) then pyMinBy key p ps else pyMinBy key best ps

/-- `find_nearest_centerline_node` (lines 74-78): `None` on the empty set,
otherwise the set element nearest (by Euclidean distance) to `coords`. -/
def find_nearest_centerline_node (cl : List CPoint) (coords : CPoint) : Option CPoint :=
  match cl with
  | [] => none
  | p :: ps => some (pyMinBy (fun q => distSqF coords q) p ps)

/-- `is_walkable` (lines 80-82), with the walkable set passed explicitly
(the source reads the module-global `CENTERLINE_SET`). -/
def is_walkable (cl : List CPoint) (x y : Fx) : Bool :=
  pMem cl (Fx.round2 x, Fx.round2 y)

/-- `heuristic` (lines 84-85): Manhattan distance. -/
def heuristicCL (a b : CPoint) : Fx :=
  Fx.add (Fx.absF (Fx.sub a.1 b.1)) (Fx.absF (Fx.sub a.2 b.2))

/-- Heap-entry order for `(f, (x, y))` tuples: Python compares `f` first,
then the node tuple lexicographically. -/
def entryLtCL (a b : Fx × CPoint) : Bool :=
  Fx.ltB a.1 b.1 ||
    (Fx.beq a.1 b.1 &&
      (Fx.ltB a.2.1 b.2.1 || (Fx.beq a.2.1 b.2.1 && Fx.ltB a.2.2 b.2.2)))

/-- `heappop`: remove a minimal entry.  This scan keeps the first minimal
entry; entries with equal keys are value-identical tuples, so which one a
binary heap would surface is observationally irrelevant. -/
def popMinCL : Fx × CPoint → List (Fx × CPoint) → (Fx × CPoint) × List (Fx × CPoint)
  | e, [] => (e, [])
  | e, f :: rest =>
    if entryLtCL f e then
      let (m, l) := popMinCL f rest
      (m, e :: l)
    else
      let (m, l) := popMinCL e rest
      (m, f :: l)

/-- Dict lookup keyed by Python tuple equality. -/
def lookupP {α : Type} (l : List (CPoint × α)) (k : CPoint) : Option α :=
  match l with
  | [] => none
  | (k2, v) :: rest => if pBeq k2 k then some v else lookupP rest k

/-- Dict assignment `d[k] = v`: update in place, or append a new key. -/
def insertP {α : Type} (l : List (CPoint × α)) (k : CPoint) (v : α) : List (CPoint × α) :=
  match l with
  | [] => [(k, v)]
  | (k2, v2) :: rest =>
    if pBeq k2 k then (k2, v) :: rest else (k2, v2) :: insertP rest k v

/-- `g_score.get(n, float('inf'))` comparisons: `none` plays infinity. -/
def ltOptCL : Option Fx → Option Fx → Bool
  | none, _ => false
  | some _, none => true
  | some a, some b => Fx.ltB a b

/-- Path reconstruction (lines 103-107): follow `came_from` until the key is
absent, collecting, then reverse.  Fuel covers any acyclic chain; the code
cannot create a cycle because each `came_from` write strictly lowers the
child's g-score. -/
def reconCL (cf : List (CPoint × CPoint)) : ℕ → CPoint → List CPoint → List CPoint
  | 0, _, acc => acc
  | fuel + 1, cur, acc =>
    match lookupP cf cur with
    | some prev => reconCL cf fuel prev (acc ++ [prev])
    | none => acc

/-- The 4-neighbour offsets of the centerline A* (line 110). -/
def dirsCL : List (Fx × Fx) :=
  [(GRID_RES, Fx.ofInt 0), (⟨-1, 20, by norm_num⟩, Fx.ofInt 0),
   (Fx.ofInt 0, GRID_RES), (Fx.ofInt 0, ⟨-1, 20, by norm_num⟩)]

/-- One neighbour relaxation (lines 111-122).  State: open list, came_from,
g_score.  Note the unconditional `heappush` - no membership guard here. -/
def relaxCL (cl : List CPoint) (goal cur : CPoint)
    (st : List (Fx × CPoint) × List (CPoint × CPoint) × List (CPoint × Fx))
    (d : Fx × Fx) :
    List (Fx × CPoint) × List (CPoint × CPoint) × List (CPoint × Fx) :=
  let nx := Fx.round2 (Fx.add cur.1 d.1)
  let ny := Fx.round2 (Fx.add cur.2 d.2)
  if is_walkable cl nx ny then
    let tentative : Option Fx := (lookupP st.2.2 cur).map (fun g => Fx.add g GRID_RES)
    if ltOptCL tentative (lookupP st.2.2 (nx, ny)) then
      match tentative with
      | some tg =>
        (st.1 ++ [((Fx.add tg (heuristicCL (nx, ny) goal), ((nx, ny) : CPoint)) : Fx × CPoint)],
         insertP st.2.1 (nx, ny) cur,
         insertP st.2.2 (nx, ny) tg)
      | none => st
    else st
  else st

/-- The main A* loop (lines 99-123), with fuel for the unguarded while. -/
def astarLoopCL (cl : List CPoint) (goal : CPoint) :
    ℕ → List (Fx × CPoint) → List (CPoint × CPoint) → List (CPoint × Fx) → List CPoint
  | 0, _, _, _ => []
  | _ + 1, [], _, _ => []
  | fuel + 1, e :: rest, cf, g =>
    let (m, rest2) := popMinCL e rest
    let cur := m.2
    if pBeq cur goal then
      (reconCL cf (cf.length + 1) cur [cur]).reverse
    else
      let st := dirsCL.foldl (relaxCL cl goal cur) (rest2, cf, g)
      astarLoopCL cl goal fuel st.1 st.2.1 st.2.2

/-- Fuel for the A* loop: generous polynomial in the set size. Termination
of the source loop on these inputs is witnessed by the concrete evaluations
below; fuel exhaustion is modelled as the loop's failure value `[]`. -/
def astarFuel (cl : List CPoint) : ℕ := (cl.length + 2) ^ 3

/-- `astar` (lines 87-123): `[]` when either endpoint is `None` (the Python
`if not start_node or not goal_node` guard; coordinate tuples are nonempty,
hence truthy) and on search failure, otherwise the reconstructed path. -/
def astarCL (cl : List CPoint) (start_node goal_node : Option CPoint) : List CPoint :=
  match start_node, goal_node with
  | some s, some g =>
    astarLoopCL cl g (astarFuel cl) [(Fx.ofInt 0, s)] [] [(s, Fx.ofInt 0)]
  | _, _ => []

/-- `snap_to_section_center` (lines 125-144). -/
def snap_to_section_center (sec : SecRow) (prod_x prod_y : Fx) : CPoint :=
  let x1 := fxMin sec.x1 sec.x2
  let x2 := fxMax sec.x1 sec.x2
  let y1 := fxMin sec.y1 sec.y2
  let y2 := fxMax sec.y1 sec.y2
  if Fx.leB (Fx.sub y2 y1) (Fx.sub x2 x1) then
    (Fx.round2 prod_x, Fx.round2 (Fx.half (Fx.add y1 y2)))
  else
    (Fx.round2 (Fx.half (Fx.add x1 x2)), Fx.round2 prod_y)

/-- A routing target `(pid, coords, section_id)` (line 423). -/
def Target : Type := ℕ × CPoint × ℕ

/-- Python tuple equality on targets. -/
def tBeq (a b : Target) : Bool :=
  a.1 == b.1 && pBeq a.2.1 b.2.1 && a.2.2 == b.2.2

/-- `min(targets, key=...)`: first minimal target. -/
def pyMinByT (key : Target → Fx) : Target → List Target → Target
  | best, [] => best
  | best, t :: ts =>
    if Fx.ltB (key t) (key best) then pyMinByT key t ts else pyMinByT key best ts

/-- `list.remove(x)`: drop the first element equal (by value) to `x`. -/
def eraseFirstT (l : List Target) (x : Target) : List Target :=
  match l with
  | [] => []
  | t :: ts => if tBeq t x then ts else t :: eraseFirstT ts x

/-- The greedy ordering loop (lines 425-431): repeatedly pick the remaining
target nearest to the cursor (by `math.dist`; equivalently by squared
distance, the monotone-sqrt bridge is proved at C5), remove it, and move the
cursor to its coordinates.  Fuel is the list length. -/
def orderTargets : ℕ → CPoint → List Target → List Target
  | 0, _, _ => []
  | _ + 1, _, [] => []
  | fuel + 1, cur, t :: ts =>
    let sel := pyMinByT (fun u => distSqF cur u.2.1) t ts
    sel :: orderTargets fuel sel.2.1 (eraseFirstT (t :: ts) sel)

/-- One emitted path segment (lines 459-466). -/
structure Segment where
  product_id : ℕ
  section_id : ℕ
  destination : CPoint
  path_length : ℕ
  path : List CPoint
  last_instruction : String
deriving DecidableEq

/-- The per-target loop (lines 433-468): a missing section row, a failed
goal snap, or an empty `astar` result each `continue`s to the next target;
a successful segment advances `current_path_start` to the snapped goal. -/
def processTargets (storeSections : List SecRow) (cl : List CPoint) :
    CPoint → List Target → List Segment
  | _, [] => []
  | cur, t :: ts =>
    match storeSections.find? (fun s => s.section_id == t.2.2) with
    | none => processTargets storeSections cl cur ts
    | some sec =>
      match find_nearest_centerline_node cl (snap_to_section_center sec t.2.1.1 t.2.1.2) with
      | none => processTargets storeSections cl cur ts
      | some goal =>
        let seg := astarCL cl (some cur) (some goal)
        if seg.isEmpty then processTargets storeSections cl cur ts
        else
          { product_id := t.1
            section_id := t.2.2
            destination := t.2.1
            path_length := seg.length
            path := seg
            last_instruction := "You have arrived at section " ++ toString t.2.2 } ::
            processTargets storeSections cl goal ts

/-- The handler's possible responses (ignoring the auth guard): the three
early-exit errors and the final JSON body `{"start": ..., "segments": ...}`. -/
inductive SPResult : Type where
  | errNoLocation : SPResult
  | errNoStart : SPResult
  | errNoDestinations : SPResult
  | ok : CPoint → List Segment → SPResult
deriving DecidableEq

/-- A `product_locations` row. -/
structure ProdRow where
  product_id : ℕ
  x : Fx
  y : Fx
  section_id : ℕ

/-- `get_shortest_path_route` (lines 372-477).  Inputs are the data the
handler reads: the `store_sections` table, the user's latest cart location,
the requested destination ids, and the `product_locations` table.  The
first component of the result is the value the handler leaves in the
module-global `CENTERLINE_SET` (written by `build_centerline_graph` at
line 386); the second is the HTTP response.

Modelling notes, each matching the source:
* line 395: no cart-location row gives a 404 (`errNoLocation`);
* lines 399-407: `find_nearest_centerline_node` returns `None` only when
  the set is empty, so the line-402 fallback (`if not start and
  CENTERLINE_SET`) can never fire - when `start` is `None`, the guard
  `CENTERLINE_SET` is falsy too - and `None` reaches the 500
  (`errNoStart`);
* line 412: an empty destinations list gives a 400 (`errNoDestinations`);
* lines 420-423: the product-location dict keeps, per id, the last
  matching table row, and targets follow request order, keeping only ids
  present in the table (duplicated request ids yield duplicated targets);
* lines 474-477: the final response is ALWAYS `ok start segments`,
  whatever `segments` is - there is no request-level failure for an empty
  segment list. -/
def targetsOf (destinations : List ℕ) (prodLocs : List ProdRow) : List Target :=
  destinations.filterMap
    (fun pid => (prodLocs.reverse.find? (fun r => r.product_id == pid)).map
      (fun r => ((pid, ((r.x, r.y), r.section_id)) : Target)))

def get_shortest_path_route (storeSections : List SecRow) (cartLoc : Option CPoint)
    (destinations : List ℕ) (prodLocs : List ProdRow) : List CPoint × SPResult :=
  let cl := build_centerline_graph storeSections
  match cartLoc with
  | none => (cl, SPResult.errNoLocation)
  | some c0 =>
    match find_nearest_centerline_node cl c0 with
    | none => (cl, SPResult.errNoStart)
    | some start =>
      if destinations.isEmpty then (cl, SPResult.errNoDestinations)
      else
        let targets : List Target := targetsOf destinations prodLocs
        let ordered := orderTargets targets.length start targets
        (cl, SPResult.ok start (processTargets storeSections cl start ordered))

/-! ### C4: per-waypoint failure policy and the absence of TotalFailure -/

/-- A degenerate (zero-size) section with id 7, used as concrete input. -/
def c4sec : SecRow := ⟨7, Fx.ofInt 0, Fx.ofInt 0, Fx.ofInt 0, Fx.ofInt 0⟩

/-- A product located in section 99, which has no geometry row. -/
def c4prod : ProdRow := ⟨3, Fx.ofInt 0, Fx.ofInt 0, 99⟩

/-- The snapped start produced for the request below. -/
def c4start : CPoint := (⟨0, 100, by norm_num⟩, ⟨0, 100, by norm_num⟩)

/-- C4, counterexample.  A request whose single waypoint fails (its section
id 99 has no `store_sections` row, so the per-target loop skips it) yields
zero segments, yet the handler still answers with the normal success body
`ok start []` - there is no request-level `TotalFailure` error, refuting
"the request is surfaced as a request-level error if and only if zero
waypoints produce any segment". -/
theorem c4_counterexample :
    (get_shortest_path_route [c4sec] (some (Fx.ofInt 0, Fx.ofInt 0)) [3] [c4prod]).2 =
      SPResult.ok c4start [] := by
  decide

/-- C4, amended.  The skip-and-continue part of the claim holds: a missing
section row, a failed goal snap, or an empty `astar` result each skip just
that waypoint, and a successful waypoint contributes its segment and moves
the cursor to the snapped goal.  But there is no request-level failure
condition on the segments: once a start is snapped and the destination list
is nonempty, the response is the success value `ok start segments` whatever
`segments` is - in particular also when it is empty. -/
theorem c4_amended :
    (∀ (ss : List SecRow) (cl : List CPoint) (cur : CPoint) (t : Target) (ts : List Target),
        ss.find? (fun s => s.section_id == t.2.2) = none →
        processTargets ss cl cur (t :: ts) = processTargets ss cl cur ts) ∧
    (∀ (ss : List SecRow) (cl : List CPoint) (cur : CPoint) (t : Target) (ts : List Target)
        (sec : SecRow),
        ss.find? (fun s => s.section_id == t.2.2) = some sec →
        find_nearest_centerline_node cl (snap_to_section_center sec t.2.1.1 t.2.1.2) = none →
        processTargets ss cl cur (t :: ts) = processTargets ss cl cur ts) ∧
    (∀ (ss : List SecRow) (cl : List CPoint) (cur : CPoint) (t : Target) (ts : List Target)
        (sec : SecRow) (goal : CPoint),
        ss.find? (fun s => s.section_id == t.2.2) = some sec →
        find_nearest_centerline_node cl (snap_to_section_center sec t.2.1.1 t.2.1.2) = some goal →
        astarCL cl (some cur) (some goal) = [] →
        processTargets ss cl cur (t :: ts) = processTargets ss cl cur ts) ∧
    (∀ (ss : List SecRow) (cl : List CPoint) (cur : CPoint) (t : Target) (ts : List Target)
        (sec : SecRow) (goal : CPoint),
        ss.find? (fun s => s.section_id == t.2.2) = some sec →
        find_nearest_centerline_node cl (snap_to_section_center sec t.2.1.1 t.2.1.2) = some goal →
        astarCL cl (some cur) (some goal) ≠ [] →
        processTargets ss cl cur (t :: ts) =
          { product_id := t.1
            section_id := t.2.2
            destination := t.2.1
            path_length := (astarCL cl (some cur) (some goal)).length
            path := astarCL cl (some cur) (some goal)
            last_instruction := "You have arrived at section " ++ toString t.2.2 } ::
            processTargets ss cl goal ts) ∧
    (∀ (ss : List SecRow) (c0 : CPoint) (dests : List ℕ) (prods : List ProdRow)
        (start : CPoint),
        find_nearest_centerline_node (build_centerline_graph ss) c0 = some start →
        dests ≠ [] →
        (get_shortest_path_route ss (some c0) dests prods).2 =
          SPResult.ok start
            (processTargets ss (build_centerline_graph ss) start
              (orderTargets (targetsOf dests prods).length start (targetsOf dests prods)))) := by
  refine ⟨?_, ?_, ?_, ?_, ?_⟩
  · intro ss cl cur t ts hfind
    simp only [processTargets]
    rw [hfind]
  · intro ss cl cur t ts sec hfind hsnap
    simp only [processTargets]
    rw [hfind]
    dsimp only
    rw [hsnap]
  · intro ss cl cur t ts sec goal hfind hsnap hastar
    simp only [processTargets]
    rw [hfind]
    dsimp only
    rw [hsnap]
    dsimp only
    simp only [hastar, List.isEmpty_nil, if_true]
  · intro ss cl cur t ts sec goal hfind hsnap hastar
    simp only [processTargets]
    rw [hfind]
    dsimp only
    rw [hsnap]
    dsimp only
    simp only [List.isEmpty_eq_true]
    rw [if_neg hastar]
  · intro ss c0 dests prods start hsnap hne
    simp only [get_shortest_path_route]
    rw [hsnap]
    simp only [List.isEmpty_eq_true]
    rw [if_neg hne]

/-- C4 witness: the amended theorem applied at the concrete request above -
the failed waypoint (no section-geometry row for id 99) is skipped, and the
response for the request is the plain success body built from whatever the
segment loop produced. -/
theorem c4_amended_witness :
    processTargets [c4sec] (build_centerline_graph [c4sec]) c4start
        [(3, ((Fx.ofInt 0, Fx.ofInt 0), 99))] =
      processTargets [c4sec] (build_centerline_graph [c4sec]) c4start [] ∧
    (get_shortest_path_route [c4sec] (some (Fx.ofInt 0, Fx.ofInt 0)) [3] [c4prod]).2 =
      SPResult.ok c4start
        (processTargets [c4sec] (build_centerline_graph [c4sec]) c4start
          (orderTargets (targetsOf [3] [c4prod]).length c4start (targetsOf [3] [c4prod]))) := by
  constructor
  · exact c4_amended.1 [c4sec] (build_centerline_graph [c4sec]) c4start
      (3, ((Fx.ofInt 0, Fx.ofInt 0), 99)) [] rfl
  · exact c4_amended.2.2.2.2 [c4sec] (Fx.ofInt 0, Fx.ofInt 0) [3] [c4prod] c4start
      (by decide) (by simp)

/-! ### C5: greedy nearest-neighbour waypoint ordering -/

/-- `math.dist`: straight-line Euclidean distance between two points. -/
noncomputable def euclDist (a b : CPoint) : ℝ :=
  Real.sqrt ((a.1.val - b.1.val) ^ 2 + (a.2.val - b.2.val) ^ 2)

theorem distSqF_val (a b : CPoint) :
    (distSqF a b).val = (a.1.val - b.1.val) ^ 2 + (a.2.val - b.2.val) ^ 2 := by
  unfold distSqF
  rw [Fx.val_add, Fx.val_mul, Fx.val_mul, Fx.val_sub, Fx.val_sub]
  ring

theorem pyMinByT_mem (key : Target → Fx) (best : Target) (ts : List Target) :
    pyMinByT key best ts = best ∨ pyMinByT key best ts ∈ ts := by
  induction ts generalizing best with
  | nil => exact Or.inl rfl
  | cons p ps ih =>
    simp only [pyMinByT]
    by_cases h : Fx.ltB (key p) (key best) = true
    · rw [if_pos h]
      rcases ih p with h2 | h2
      · exact Or.inr (by rw [h2]; exact List.mem_cons_self p ps)
      · exact Or.inr (List.mem_cons_of_mem p h2)
    · rw [if_neg h]
      rcases ih best with h2 | h2
      · exact Or.inl h2
      · exact Or.inr (List.mem_cons_of_mem p h2)

theorem pyMinByT_min (key : Target → Fx) (best : Target) (ts : List Target) :
    ∀ u : Target, (u = best ∨ u ∈ ts) →
      (key (pyMinByT key best ts)).val ≤ (key u).val := by
  induction ts generalizing best with
  | nil =>
    intro u hu
    rcases hu with h | h
    · rw [h]; simp [pyMinByT]
    · exact absurd h (List.not_mem_nil u)
  | cons p ps ih =>
    intro u hu
    simp only [pyMinByT]
    by_cases h : Fx.ltB (key p) (key best) = true
    · rw [if_pos h]
      have hpb : (key p).val < (key best).val := (Fx.ltB_iff _ _).mp h
      rcases hu with h2 | h2
      · exact le_of_lt (lt_of_le_of_lt (ih p p (Or.inl rfl)) (by rw [h2]; exact hpb))
      · rcases List.mem_cons.mp h2 with h3 | h3
        · exact h3 ▸ ih p p (Or.inl rfl)
        · exact ih p u (Or.inr h3)
    · rw [if_neg h]
      have hbp : (key best).val ≤ (key p).val := by
        by_contra hcon
        exact h ((Fx.ltB_iff _ _).mpr (lt_of_not_le hcon))
      rcases hu with h2 | h2
      · exact ih best u (Or.inl h2)
      · rcases List.mem_cons.mp h2 with h3 | h3
        · exact le_trans (ih best best (Or.inl rfl)) (h3 ▸ hbp)
        · exact ih best u (Or.inr h3)

/-- C5.  The route sequencer is greedy nearest-neighbour: on a nonempty
target list, the first target it emits is one of the given targets, it is a
minimizer of the straight-line Euclidean distance (`math.dist`) from the
current cursor, and the remaining ordering continues from that target's
coordinates on the list with it removed.  (The Python code compares
`math.dist` values; the embedding compares exact squared distances, and the
minimality conclusion here is stated for the true Euclidean distance via
monotonicity of the square root.) -/
theorem c5_theorem (cur : CPoint) (t : Target) (ts : List Target) :
    ∃ sel : Target,
      (sel = t ∨ sel ∈ ts) ∧
      orderTargets (t :: ts).length cur (t :: ts) =
        sel :: orderTargets ts.length sel.2.1 (eraseFirstT (t :: ts) sel) ∧
      (∀ u : Target, (u = t ∨ u ∈ ts) → euclDist cur sel.2.1 ≤ euclDist cur u.2.1) := by
  refine ⟨pyMinByT (fun u => distSqF cur u.2.1) t ts, pyMinByT_mem _ t ts, ?_, ?_⟩
  · simp only [List.length_cons, orderTargets]
  · intro u hu
    have h := pyMinByT_min (fun u => distSqF cur u.2.1) t ts u hu
    unfold euclDist
    rw [← distSqF_val, ← distSqF_val]
    exact Real.sqrt_le_sqrt h

/-- Cursor at the origin for the spec's two-waypoint scenario. -/
def c5cur : CPoint := (Fx.ofInt 0, Fx.ofInt 0)

/-- A waypoint at Euclidean distance 5 from the start. -/
def c5far : Target := (1, ((Fx.ofInt 5, Fx.ofInt 0), 11))

/-- A waypoint at Euclidean distance 2 from the start. -/
def c5near : Target := (2, ((Fx.ofInt 0, Fx.ofInt 2), 12))

/-- C5 witness: the spec's scenario.  With the two waypoints at Euclidean
distances 5 and 2 from the start, the sequencer emits the distance-2
waypoint first. -/
theorem c5_theorem_witness :
    (orderTargets 2 c5cur [c5far, c5near]).head? = some c5near := by
  obtain ⟨sel, hmem, heq, hmin⟩ := c5_theorem c5cur c5far [c5near]
  have hfar : euclDist c5cur c5far.2.1 = 5 := by
    unfold euclDist c5cur c5far
    simp only [Fx.val_ofInt]
    have h1 : (((0:ℤ):ℝ) - ((5:ℤ):ℝ)) ^ 2 + (((0:ℤ):ℝ) - ((0:ℤ):ℝ)) ^ 2 = 25 := by
      push_cast; norm_num
    rw [h1, show (25:ℝ) = 5 ^ 2 by norm_num, Real.sqrt_sq (by norm_num : (0:ℝ) ≤ 5)]
  have hnear : euclDist c5cur c5near.2.1 = 2 := by
    unfold euclDist c5cur c5near
    simp only [Fx.val_ofInt]
    have h1 : (((0:ℤ):ℝ) - ((0:ℤ):ℝ)) ^ 2 + (((0:ℤ):ℝ) - ((2:ℤ):ℝ)) ^ 2 = 4 := by
      push_cast; norm_num
    rw [h1, show (4:ℝ) = 2 ^ 2 by norm_num, Real.sqrt_sq (by norm_num : (0:ℝ) ≤ 2)]
  rcases hmem with h | h
  · exfalso
    have h2 := hmin c5near (Or.inr (List.mem_singleton.mpr rfl))
    rw [h, hfar, hnear] at h2
    linarith
  · have hsel : sel = c5near := List.mem_singleton.mp h
    rw [show ([c5far, c5near] : List Target).length = 2 from rfl] at heq
    rw [heq]
    simp only [List.head?_cons, hsel]

/-! ### C9: process-wide mutable walkable-point set -/

/-- A 0.05-wide horizontal aisle section: its centerline holds the two
points (0.0, 0.0) and (0.05, 0.0). -/
def c9sec : SecRow := ⟨7, Fx.ofInt 0, Fx.ofInt 0, ⟨1, 20, by norm_num⟩, Fx.ofInt 0⟩

/-- The centerline point (0.0, 0.0) as the search produces it. -/
def c9s : CPoint := (⟨0, 100, by norm_num⟩, ⟨0, 100, by norm_num⟩)

/-- The centerline point (0.05, 0.0) as the search produces it. -/
def c9g : CPoint := (⟨5, 100, by norm_num⟩, ⟨0, 100, by norm_num⟩)

/-- C9.  The claim is what the spec demands, and the code violates it:
`CENTERLINE_SET` is a process-wide mutable module global (cart_routes.py
lines 22-23), `build_centerline_graph` assigns it on every request (lines
29, 72, called from the handler at line 386), and the pathfinding helpers
read it ambiently rather than taking it as an argument.  In this embedding
the global is passed explicitly, which makes the sharing visible as state
dependence: the handler's leftover state is exactly the per-request rebuild
(first conjunct), two requests with different section tables leave
different states (second), and `is_walkable`, `find_nearest_centerline_node`
and `astar` - run with identical arguments - return different results under
the two states (remaining conjuncts), which is precisely what an
interleaved concurrent request would observe. -/
theorem c9_theorem :
    (get_shortest_path_route [c9sec] (some (Fx.ofInt 0, Fx.ofInt 0)) [3] [c4prod]).1 =
      build_centerline_graph [c9sec] ∧
    build_centerline_graph [c9sec] ≠ build_centerline_graph [] ∧
    is_walkable (build_centerline_graph [c9sec]) (Fx.ofInt 0) (Fx.ofInt 0) = true ∧
    is_walkable (build_centerline_graph []) (Fx.ofInt 0) (Fx.ofInt 0) = false ∧
    find_nearest_centerline_node (build_centerline_graph []) (Fx.ofInt 0, Fx.ofInt 0) =
      none ∧
    astarCL (build_centerline_graph [c9sec]) (some c9s) (some c9g) = [c9s, c9g] ∧
    astarCL (build_centerline_graph []) (some c9s) (some c9g) = [] := by
  decide
